import Mathlib

/-!
# with-package-check: reconciliation of package.json, package-lock.json and node_modules

A shallow embedding of `src/index.js` (`withPackageCheck`, `readJson`,
`checkPackages`). The JavaScript is effectful: it reads files, writes to the
console, may end the process, may prompt and may spawn `npm`. Here

* everything the code reads from the outside is an explicit input
  (`World` for the file system, `Host` for the identifiers the module does
  not bind itself and for the `node-strings` helpers, the prompt answer and
  the installer for the two collaborators);
* everything the code does to the outside is recorded, in order, in a list of
  `Event`s, and the fate of the promise returned by `checkPackages` is an
  `Outcome`.

Parsed JSON is modelled by typed records holding the fields the code reads:
a lock entry and an installed descriptor carry a string `version`, a
`peerDependenciesMeta` entry an optional boolean `optional`. A read guarded by
`hasOwnProperty` is a lookup in an association list; the unguarded read of
line 40 also finds the members every object inherits (`readProperty`).
-/

namespace WithPackageCheck

/-! ## Data model -/

/-- The console functions named by the `func` field of a buffered log. -/
inductive Func where
  | info
  | warn
  | error
  deriving DecidableEq, Repr

/-- One buffered log, `{func, msg}` in the source. -/
structure Log where
  func : Func
  msg : String
  deriving DecidableEq, Repr

/-- An entry of `packageLockJson.dependencies`; only `version` is read. -/
structure LockEntry where
  version : String
  deriving DecidableEq, Repr

/-- An entry of `installed.peerDependenciesMeta`; `optional` is `none` when the
entry has no own property `optional`. -/
structure PeerMeta where
  optional : Option Bool
  deriving DecidableEq, Repr

/-- The parsed `./node_modules/<dependency>/package.json`. `peerDependencies`
is `none` when the descriptor has no such own property, otherwise the keys in
`Object.keys` order; likewise `peerDependenciesMeta`. -/
structure Descriptor where
  version : String
  peerDependencies : Option (List String)
  peerDependenciesMeta : Option (List (String × PeerMeta))
  deriving DecidableEq, Repr

/-- The parsed `./package.json`: the entries (name, range) of `dependencies` and
of `devDependencies`. A field that is absent is the empty list, since spreading
`undefined` adds no key. -/
structure PackageJson where
  dependencies : List (String × String)
  devDependencies : List (String × String)
  deriving DecidableEq, Repr

/-- The parsed `./package-lock.json`. `dependencies` is `none` when the lock file
has no such field (reading a property of `undefined` then throws). -/
structure PackageLock where
  dependencies : Option (List (String × LockEntry))
  deriving DecidableEq, Repr

/-- The error thrown by a failing `fs.statSync`: its `code` and the text of
`e.toString()`. -/
structure FsError where
  code : String
  text : String
  deriving DecidableEq, Repr

/-- The file system as the code observes it. Every call that can throw returns
`none` (or an `FsError`) when it does. -/
structure World where
  /-- Result of `readJson("./package.json")`. -/
  packageJson : Option PackageJson
  /-- Result of `readJson("./package-lock.json")`. -/
  packageLockJson : Option PackageLock
  /-- Result of `fs.lstatSync(p).isSymbolicLink()`. -/
  lstatSync : String → Option Bool
  /-- Result of `fs.readlinkSync(p)`. -/
  readlinkSync : String → Option String
  /-- Result of `readJson(p)` for a descriptor path. -/
  readJson : String → Option Descriptor
  /-- Result of `fs.statSync(p)`: `none` on success, the error thrown otherwise. -/
  statSync : String → Option FsError

/-- The functions of Node's `path` module that line 51 calls. -/
structure PathModule where
  basename : String → String
  resolve : String → String → String → String

/-- What the identifiers that `index.js` uses without binding them resolve to
in the scope the module runs in, and the two `node-strings` helpers. The module
imports `exec`, `fs` and `strings` only: `path`, `__filename` and the method
`console.event` come from the host, and are `none` / `false` when the host
has no such binding. `bold` and `white` are `strings.bold` and `strings.white`
on a string; `boldUndefined` is what `strings.bold(undefined)` returns, `none`
when that call throws. -/
structure Host where
  path : Option PathModule
  filename : Option String
  consoleEvent : Bool
  bold : String → String
  white : String → String
  boldUndefined : Option String

/-- Node.js running `index.js` as the ES module it is written as: there is no
global `path`, no `__filename`, and `console` has no method `event`.
`node-strings` is not part of this repository: its helpers wrap their argument
in terminal escape sequences, which `nodeHost` leaves out (`bold` and `white`
are the identity), so the messages of lines 64 and 104 computed on `nodeHost`
are the texts without the escape sequences. The general statements below hold
for every host. -/
def nodeHost : Host :=
  { path := none, filename := none, consoleEvent := false, bold := id, white := id,
    boldUndefined := some "undefined" }

/-! ## Default ordering of `Array.prototype.sort` -/

/-- UTF-16 code units of one character. -/
def utf16 (c : Char) : List Nat :=
  if c.toNat < 0x10000 then [c.toNat]
  else [0xD800 + (c.toNat - 0x10000) / 0x400, 0xDC00 + (c.toNat - 0x10000) % 0x400]

/-- UTF-16 code units of a string, the sequence JavaScript compares. -/
def codeUnits (s : String) : List Nat :=
  s.toList.flatMap utf16

/-- Lexicographic `≤` on code-unit sequences. -/
def unitsLe : List Nat → List Nat → Bool
  | [], _ => true
  | _ :: _, [] => false
  | a :: as, b :: bs => if a < b then true else if b < a then false else unitsLe as bs

/-- The comparison `sort()` uses without a comparator: strings by code units. -/
def jsLe (a b : String) : Prop :=
  unitsLe (codeUnits a) (codeUnits b) = true

instance : DecidableRel jsLe := fun a b =>
  inferInstanceAs (Decidable (unitsLe (codeUnits a) (codeUnits b) = true))

/-- The strict comparison by code units: `b` is not `≤ a`. -/
def jsLt (a b : String) : Prop :=
  unitsLe (codeUnits b) (codeUnits a) = false

instance : DecidableRel jsLt := fun a b =>
  inferInstanceAs (Decidable (unitsLe (codeUnits b) (codeUnits a) = false))

/-- `Object.keys({...a, ...b})`: the keys of `a` and of `b`, each once. (The
order in which JavaScript enumerates them is not modelled: the only use of
this list sorts it.) -/
def objectKeysSpread (a b : List (String × String)) : List String :=
  ((a.map Prod.fst) ++ (b.map Prod.fst)).dedup

/-- The array `dependencies` of lines 29-32. -/
def dependencies (packageJson : PackageJson) : List String :=
  (objectKeysSpread packageJson.dependencies packageJson.devDependencies).insertionSort jsLe

/-! ## The classification loop (lines 34-117) -/

/-- The three accumulators of one pass: `installPackages` (an array of
`name@version` tokens), `errorPackages` (a `Set`, kept in insertion order) and
the buffered `logs`. -/
structure Plan where
  installPackages : List String
  errorPackages : List String
  logs : List Log
  deriving DecidableEq, Repr

/-- The accumulators before the loop (lines 34-37). -/
def Plan.empty : Plan :=
  { installPackages := [], errorPackages := [], logs := [] }

/-- `Set.prototype.add`: a value already in the set is not added again. -/
def setAdd (s : List String) (x : String) : List String :=
  if x ∈ s then s else s ++ [x]

/-- Line 45. -/
def dependencyPath (dependency : String) : String :=
  "./node_modules/" ++ dependency

/-- Line 46. -/
def dependencyPackagePath (dependency : String) : String :=
  dependencyPath dependency ++ "/package.json"

/-- Line 86. -/
def peerDependencyPackagePath (peerDependency : String) : String :=
  "./node_modules/" ++ peerDependency ++ "/package.json"

/-- Line 51, `path.resolve(path.basename(__filename), "node_modules", link)`:
`none` when evaluating it throws a `ReferenceError` because `path` or
`__filename` is unbound. -/
def resolveLinked (h : Host) (link : String) : Option String :=
  match h.path, h.filename with
  | some path, some filename => some (path.resolve (path.basename filename) "node_modules" link)
  | _, _ => none

/-- The `try` block of lines 43-55 with its empty `catch`: the values of
`linked` and `installed` after it, `none` for `undefined`. -/
def inspect (h : Host) (w : World) (dependency : String) : Option String × Option Descriptor :=
  match w.lstatSync (dependencyPath dependency) with
  | none => (none, none)
  | some true =>
    match w.readlinkSync (dependencyPath dependency) with
    | none => (none, none)
    | some link => (resolveLinked h link, none)
  | some false => (none, w.readJson (dependencyPackagePath dependency))

/-- Lines 73-80: the value of `isOptional` for one peer. -/
def isOptional (installed : Descriptor) (peerDependency : String) : Bool :=
  match installed.peerDependenciesMeta with
  | none => false
  | some peerDependenciesMeta =>
    match peerDependenciesMeta.lookup peerDependency with
    | none => false
    | some m =>
      match m.optional with
      | some optional => optional
      | none => false

/-- Lines 94 and 96: the log pushed when the probe of a peer throws `e`. -/
def peerLog (dependency peerDependency : String) (e : FsError) : Log :=
  if e.code ≠ "ENOENT" then ⟨Func.error, e.text⟩
  else ⟨Func.warn, dependency ++ " requires " ++ peerDependency ++
    " but is not installed, you must do this yourself, because I can't determine the version you need"⟩

/-- Line 82: the condition `!isOptional && !dependencies.includes(peerDependency)`
under which the peer is probed. -/
def probed (dependencies : List String) (installed : Descriptor) (peerDependency : String) :
    Bool :=
  !isOptional installed peerDependency && !dependencies.contains peerDependency

/-- Lines 72-99: the callback run for one key of `installed.peerDependencies`. -/
def auditPeer (w : World) (dependencies : List String) (dependency : String)
    (installed : Descriptor) (acc : Plan) (peerDependency : String) : Plan :=
  if probed dependencies installed peerDependency then
    match w.statSync (peerDependencyPackagePath peerDependency) with
    | none => acc
    | some e =>
      { acc with
        errorPackages := setAdd acc.errorPackages peerDependency
        logs := acc.logs ++ [peerLog dependency peerDependency e] }
  else acc

/-- Lines 69-100: the peer audit of a dependency whose installed version matches. -/
def auditPeers (w : World) (dependencies : List String) (dependency : String)
    (installed : Descriptor) (acc : Plan) : Plan :=
  match installed.peerDependencies with
  | none => acc
  | some peerDependencies =>
    peerDependencies.foldl (auditPeer w dependencies dependency installed) acc

/-- Line 63 and line 108: the token pushed on `installPackages`. -/
def token (dependency version : String) : String :=
  dependency ++ "@" ++ version

/-- The keys a plain object inherits from `Object.prototype`: reading one of
them on an object that has no such key of its own yields the inherited member
(a function, or the prototype itself for `__proto__`), not `undefined`. -/
def objectPrototypeKeys : List String :=
  ["constructor", "__defineGetter__", "__defineSetter__", "hasOwnProperty",
    "__lookupGetter__", "__lookupSetter__", "isPrototypeOf", "propertyIsEnumerable",
    "toString", "valueOf", "__proto__", "toLocaleString"]

/-- What `needed` holds after line 40 when it is not `undefined`: the lock entry
of the dependency, or a member inherited from `Object.prototype`. Both are
truthy. -/
inductive Needed where
  | entry (e : LockEntry)
  | inherited
  deriving DecidableEq, Repr

/-- The value of `needed.version`, `none` for `undefined`: an inherited member has
no property `version`. -/
def Needed.version : Needed → Option String
  | Needed.entry e => some e.version
  | Needed.inherited => none

/-- Line 40, the property read `packageLockJson.dependencies[dependency]`, `none`
for `undefined`: the entry under the key when the object has the key itself,
otherwise what the key names on `Object.prototype`, if anything. -/
def readProperty (locked : List (String × LockEntry)) (dependency : String) : Option Needed :=
  match locked.lookup dependency with
  | some e => some (Needed.entry e)
  | none => if dependency ∈ objectPrototypeKeys then some Needed.inherited else none

/-- A value interpolated in a template literal: `undefined` is written
`undefined`. -/
def interpolate : Option String → String
  | some s => s
  | none => "undefined"

/-- The call `strings.bold(needed.version)` of line 64, `none` when it throws. -/
def boldNeeded (h : Host) : Option String → Option String
  | some version => some (h.bold version)
  | none => h.boldUndefined

/-- Line 64, given what `strings.bold(needed.version)` returned. -/
def mismatchLog (h : Host) (dependency installedVersion neededBold : String) : Log :=
  ⟨Func.warn, "Version mismatch for " ++ dependency ++ ", version " ++ h.bold installedVersion ++
    " is installed but version " ++ neededBold ++ " is needed"⟩

/-- Line 104. -/
def linkedLog (h : Host) (dependency linked : String) : Log :=
  ⟨Func.info, h.white (dependency ++ " is currently linked at " ++ h.bold linked)⟩

/-- Line 109. -/
def missingLog (dependency : String) : Log :=
  ⟨Func.warn, dependency ++ " is not installed, but found in lock file."⟩

/-- Line 114. -/
def unlockedLog (dependency : String) : Log :=
  ⟨Func.error, "Found " ++ dependency ++ " in package.json, but was not found in lock file"⟩

/-- How one call of the `forEach` callback ends: it returns (`next`, with the
accumulators), it ends the process (`exit`, with the accumulators as they are
at that moment), or it throws. -/
inductive Step where
  | next (acc : Plan)
  | exit (code : Int) (acc : Plan)
  | throw
  deriving DecidableEq, Repr

/-- Lines 39-117: the callback run for one element of `dependencies`. -/
def visit (h : Host) (w : World) (packageLockJson : PackageLock) (dependencies : List String)
    (acc : Plan) (dependency : String) : Step :=
  match packageLockJson.dependencies with
  | none => Step.throw
  | some locked =>
    let needed := readProperty locked dependency
    let (linked, installed) := inspect h w dependency
    match needed with
    | some needed =>
      match installed with
      | some installed =>
        -- `installed.version !== needed.version`: a string differs from `undefined`
        if some installed.version ≠ needed.version then
          match boldNeeded h needed.version with
          | some neededBold =>
            Step.next { acc with
              installPackages :=
                acc.installPackages ++ [token dependency (interpolate needed.version)]
              logs := acc.logs ++ [mismatchLog h dependency installed.version neededBold] }
          | none => Step.throw
        else
          Step.next (auditPeers w dependencies dependency installed acc)
      | none =>
        match linked with
        | some linked =>
          -- `else if (linked)`: a string is truthy when it is not empty
          if linked ≠ "" then
            Step.next { acc with logs := acc.logs ++ [linkedLog h dependency linked] }
          else
            Step.next { acc with
              installPackages :=
                acc.installPackages ++ [token dependency (interpolate needed.version)]
              logs := acc.logs ++ [missingLog dependency] }
        | none =>
          Step.next { acc with
            installPackages :=
              acc.installPackages ++ [token dependency (interpolate needed.version)]
            logs := acc.logs ++ [missingLog dependency] }
    | none =>
      Step.exit (-1) { acc with logs := acc.logs ++ [unlockedLog dependency] }

/-- `Array.prototype.forEach` over the dependencies: the callback is run on each
in turn, and nothing further runs once a call ends the process or throws. -/
def forEach (f : Plan → String → Step) : List String → Plan → Step
  | [], acc => Step.next acc
  | d :: ds, acc =>
    match f acc d with
    | Step.next acc' => forEach f ds acc'
    | Step.exit code acc' => Step.exit code acc'
    | Step.throw => Step.throw

/-- Lines 29-117: the loop of one pass over the sorted dependencies. -/
def classify (h : Host) (w : World) (packageJson : PackageJson)
    (packageLockJson : PackageLock) : Step :=
  forEach (visit h w packageLockJson (dependencies packageJson)) (dependencies packageJson)
    Plan.empty

/-! ## One pass and the remediation (lines 19-183) -/

/-- What a pass does to the outside, in the order it does it. -/
inductive Event where
  /-- A call of `console.info`, `console.warn` or `console.error`. -/
  | console (func : Func) (msg : String)
  /-- A call of `console.event` on a host whose console has that method. -/
  | consoleEvent (msg : String)
  /-- A call of `inquirer.prompt` with a confirm question. -/
  | prompt (message : String)
  /-- A call of `exec(command)`. -/
  | exec (command : String)
  deriving DecidableEq, Repr

/-- The fate of the promise returned by `checkPackages`: it is settled
(`resolved`, `rejected`); it is never settled because an event the code waits
for never comes (`pending`) or because the `exit` handler of line 151 threw
outside its `try`, which leaves an unhandled rejection of the handler
(`unhandled`); or the process was ended by `process.exit(code)` first. -/
inductive Outcome where
  | resolved
  | rejected
  | pending
  | unhandled
  | exited (code : Int)
  deriving DecidableEq, Repr

/-- The observable behaviour of a call of `checkPackages`. -/
structure Run where
  events : List Event
  outcome : Outcome
  deriving DecidableEq, Repr

/-- What `exec(command)` leads to: the chunks the child writes to stderr, the
exit code with which the child emits `exit` (`none` when it never emits `exit`,
as when the shell cannot be spawned and the child emits `error` only), and the
file system at that moment. The listener of line 151 takes no argument: it
does not see the exit code. -/
structure Installation where
  stderr : List String
  exit : Option Int
  world : World

/-- Lines 120-123: the buffered logs written to the console. -/
def flush (logs : List Log) : List Event :=
  logs.map fun l => Event.console l.func l.msg

/-- Lines 128-129: the count of the error set and then each of its names. -/
def reportErrors (errorPackages : List String) : List Event :=
  Event.console Func.error ("Found " ++ toString errorPackages.length ++ " packages with errors:")
    :: errorPackages.map fun errorPackage => Event.console Func.error errorPackage

/-- Line 144 (and line 149: joining the one-element array `command` with
`" && "` gives its element). -/
def command (installPackages : List String) : String :=
  "npm i " ++ " ".intercalate installPackages

set_option linter.unusedVariables false in
/-- The function `checkPackages(autofixEnabled)`, lines 19-183. `prompt` is the
answer the user gives to the confirmation (`none`: the prompt never answers),
`exec` the behaviour of the installer. The dynamic import of `inquirer`
(line 20) is taken to succeed, and `strings.clean()` (line 118) to touch
nothing the pass reads or writes. An exception thrown inside the promise
executor (a failing `readJson`, a property read on `undefined`) rejects the
promise. -/
def checkPackages (h : Host) (prompt : Option Bool) (exec : String → Installation)
    (autofixEnabled : Bool) (w : World) : Run :=
  let start : List Event :=
    if autofixEnabled then [Event.console Func.info "Checking for outdated packages"] else []
  match w.packageJson with
  | none => ⟨start, Outcome.rejected⟩
  | some packageJson =>
    match w.packageLockJson with
    | none => ⟨start, Outcome.rejected⟩
    | some packageLockJson =>
      match classify h w packageJson packageLockJson with
      | Step.throw => ⟨start, Outcome.rejected⟩
      | Step.exit code _ => ⟨start, Outcome.exited code⟩
      | Step.next plan =>
        let printed := start ++ flush plan.logs
        if plan.errorPackages.length > 0 then
          ⟨printed ++ reportErrors plan.errorPackages, Outcome.exited 0⟩
        else if plan.installPackages.length > 0 then
          if hfix : autofixEnabled = true then
            let asked := printed ++ [Event.prompt "Want to auto-install packages?"]
            match prompt with
            | none => ⟨asked, Outcome.pending⟩
            | some false => ⟨asked, Outcome.resolved⟩
            | some true =>
              let npmi := exec (command plan.installPackages)
              let ran := asked ++
                [Event.console Func.info
                    ("Running npm install for " ++ " ".intercalate plan.installPackages),
                  Event.exec (command plan.installPackages)] ++
                npmi.stderr.map fun data => Event.console Func.error data
              if npmi.exit.isSome then
                if h.consoleEvent then
                  let recheck := checkPackages h prompt exec false npmi.world
                  ⟨ran ++ [Event.consoleEvent "Installed missing packages",
                      Event.console Func.info "Re-checking for outdated packages"] ++
                    recheck.events, recheck.outcome⟩
                else
                  -- `console.event` is not a function: the handler throws before its `try`
                  ⟨ran, Outcome.unhandled⟩
              else ⟨ran, Outcome.pending⟩
          else ⟨printed, Outcome.rejected⟩
        else
          ⟨printed ++
            (if autofixEnabled then [] else [Event.console Func.info "All packages up-to-date"]),
            Outcome.resolved⟩
termination_by autofixEnabled.toNat
decreasing_by
  subst hfix
  decide

/-- Line 6, `process.env.NODE_ENV === 'production'`, and lines 5-13: the function
`withPackageCheck(config)`. It returns the promise's fate together with the
value it resolves to, if it resolves. -/
def withPackageCheck {Config : Type} (nodeEnv : Option String) (h : Host) (prompt : Option Bool)
    (exec : String → Installation) (w : World) (config : Config) : Run × Option Config :=
  if nodeEnv = some "production" then (⟨[], Outcome.resolved⟩, some config)
  else
    let r := checkPackages h prompt exec true w
    match r.outcome with
    | Outcome.resolved => (r, some config)
    | _ => (r, none)

/-! ## Views of the loop used to state its properties -/

/-- What the callback of lines 39-117 adds when it visits `dependency`: the
accumulators it leaves when started on the empty ones. -/
def contribution (h : Host) (w : World) (packageLockJson : PackageLock)
    (dependencies : List String) (dependency : String) : Plan :=
  match visit h w packageLockJson dependencies Plan.empty dependency with
  | Step.next acc => acc
  | Step.exit _ acc => acc
  | Step.throw => Plan.empty

/-- What the callback does for a dependency that the lock does not hold but whose
name is inherited from `Object.prototype`, given the values of `linked` and
`installed`: `visit` in that case (`visit_inherited`). -/
def inheritedStep (h : Host) (dependency : String) (linked : Option String)
    (installed : Option Descriptor) (acc : Plan) : Step :=
  match installed with
  | some installed =>
    match h.boldUndefined with
    | some neededBold =>
      Step.next { acc with
        installPackages := acc.installPackages ++ [token dependency "undefined"]
        logs := acc.logs ++ [mismatchLog h dependency installed.version neededBold] }
    | none => Step.throw
  | none =>
    match linked with
    | some linked =>
      if linked ≠ "" then
        Step.next { acc with logs := acc.logs ++ [linkedLog h dependency linked] }
      else
        Step.next { acc with
          installPackages := acc.installPackages ++ [token dependency "undefined"]
          logs := acc.logs ++ [missingLog dependency] }
    | none =>
      Step.next { acc with
        installPackages := acc.installPackages ++ [token dependency "undefined"]
        logs := acc.logs ++ [missingLog dependency] }

/-- The error thrown by the probe of one peer, if the probe is made and throws. -/
def failure (w : World) (dependencies : List String) (installed : Descriptor)
    (peerDependency : String) : Option (String × FsError) :=
  if probed dependencies installed peerDependency then
    (w.statSync (peerDependencyPackagePath peerDependency)).map fun e => (peerDependency, e)
  else none

/-- The peers of `installed` whose probe is made and throws, in the order of
`Object.keys(installed.peerDependencies)`, each with the error thrown. -/
def failures (w : World) (dependencies : List String) (installed : Descriptor) :
    List (String × FsError) :=
  match installed.peerDependencies with
  | none => []
  | some peerDependencies => peerDependencies.filterMap (failure w dependencies installed)

/-- The body of `checkPackages` with the call of line 157 taken as a parameter:
`recheck` is what `await checkPackages(false)` does on the file system the
installer leaves. It is `checkPackages` itself when `recheck` is
`checkPackages ... false` (`checkPackages_eq`). -/
def checkPackagesWith (recheck : World → Run) (h : Host) (prompt : Option Bool)
    (exec : String → Installation) (autofixEnabled : Bool) (w : World) : Run :=
  let start : List Event :=
    if autofixEnabled then [Event.console Func.info "Checking for outdated packages"] else []
  match w.packageJson with
  | none => ⟨start, Outcome.rejected⟩
  | some packageJson =>
    match w.packageLockJson with
    | none => ⟨start, Outcome.rejected⟩
    | some packageLockJson =>
      match classify h w packageJson packageLockJson with
      | Step.throw => ⟨start, Outcome.rejected⟩
      | Step.exit code _ => ⟨start, Outcome.exited code⟩
      | Step.next plan =>
        let printed := start ++ flush plan.logs
        if plan.errorPackages.length > 0 then
          ⟨printed ++ reportErrors plan.errorPackages, Outcome.exited 0⟩
        else if plan.installPackages.length > 0 then
          if autofixEnabled = true then
            let asked := printed ++ [Event.prompt "Want to auto-install packages?"]
            match prompt with
            | none => ⟨asked, Outcome.pending⟩
            | some false => ⟨asked, Outcome.resolved⟩
            | some true =>
              let npmi := exec (command plan.installPackages)
              let ran := asked ++
                [Event.console Func.info
                    ("Running npm install for " ++ " ".intercalate plan.installPackages),
                  Event.exec (command plan.installPackages)] ++
                npmi.stderr.map fun data => Event.console Func.error data
              if npmi.exit.isSome then
                if h.consoleEvent then
                  ⟨ran ++ [Event.consoleEvent "Installed missing packages",
                      Event.console Func.info "Re-checking for outdated packages"] ++
                    (recheck npmi.world).events, (recheck npmi.world).outcome⟩
                else ⟨ran, Outcome.unhandled⟩
              else ⟨ran, Outcome.pending⟩
          else ⟨printed, Outcome.rejected⟩
        else
          ⟨printed ++
            (if autofixEnabled then [] else [Event.console Func.info "All packages up-to-date"]),
            Outcome.resolved⟩

/-- The number of prompts shown in a run. -/
def prompts (events : List Event) : Nat :=
  events.countP fun e => match e with
    | Event.prompt _ => true
    | _ => false

/-- The commands passed to `exec` in a run, in order. -/
def execs (events : List Event) : List String :=
  events.filterMap fun e => match e with
    | Event.exec command => some command
    | _ => none

/-! ## Concrete inputs used by the scenarios -/

/-- The manifest `{a: "^1.0.0"}` of the scenarios. -/
def manifestA : PackageJson :=
  { dependencies := [("a", "^1.0.0")], devDependencies := [] }

/-- The lock `{a: "1.2.0"}` of the scenarios. -/
def lockA : PackageLock :=
  { dependencies := some [("a", ⟨"1.2.0"⟩)] }

/-- The error a probe of a missing file throws. -/
def enoent (path : String) : FsError :=
  { code := "ENOENT", text := "Error: ENOENT: no such file or directory, stat " ++ path }

/-- Manifest `{a: "^1.0.0"}`, lock `{a: "1.2.0"}`, and an installation directory
with no entry at all. -/
def emptyDirectory : World :=
  { packageJson := some manifestA
    packageLockJson := some lockA
    lstatSync := fun _ => none
    readlinkSync := fun _ => none
    readJson := fun _ => none
    statSync := fun path => some (enoent path) }

/-- As `emptyDirectory`, but `./node_modules/a` is a symbolic link to `../../a`. -/
def linkedDirectory : World :=
  { emptyDirectory with
    lstatSync := fun path => if path = "./node_modules/a" then some true else none
    readlinkSync := fun path => if path = "./node_modules/a" then some "../../a" else none }

/-- Manifest `{a: "^1.0.0"}` with a lock whose `dependencies` is `{}`. -/
def unlockedDirectory : World :=
  { emptyDirectory with packageLockJson := some { dependencies := some [] } }

/-- As `emptyDirectory`, but `a` is installed at version 1.1.0. -/
def outdatedDirectory : World :=
  { emptyDirectory with
    lstatSync := fun path => if path = "./node_modules/a" then some false else none
    readJson := fun path =>
      if path = "./node_modules/a/package.json" then
        some { version := "1.1.0", peerDependencies := none, peerDependenciesMeta := none }
      else none }

/-- As `emptyDirectory`, but `a` is installed at the locked version 1.2.0 and
declares the peers `b` (installed, not declared in the manifest) and `c`
(marked optional, not installed). -/
def convergedDirectory : World :=
  { emptyDirectory with
    lstatSync := fun path => if path = "./node_modules/a" then some false else none
    readJson := fun path =>
      if path = "./node_modules/a/package.json" then
        some { version := "1.2.0", peerDependencies := some ["b", "c"],
               peerDependenciesMeta := some [("c", ⟨some true⟩)] }
      else none
    statSync := fun path =>
      if path = "./node_modules/b/package.json" then none else some (enoent path) }

/-- The manifest `{dependencies: {c: "^2.0.0", a: "^1.0.0"}}`. -/
def manifestCA : PackageJson :=
  { dependencies := [("c", "^2.0.0"), ("a", "^1.0.0")], devDependencies := [] }

/-- The lock `{a: "1.2.0", c: "2.0.0"}`. -/
def lockAC : PackageLock :=
  { dependencies := some [("a", ⟨"1.2.0"⟩), ("c", ⟨"2.0.0"⟩)] }

/-- Manifest `{c, a}`, lock `{a: "1.2.0", c: "2.0.0"}`: `a` is installed at 1.2.0
and requires the peer `b`, which is neither installed nor declared; `c` is not
installed. -/
def precedenceDirectory : World :=
  { packageJson := some manifestCA
    packageLockJson := some lockAC
    lstatSync := fun path => if path = "./node_modules/a" then some false else none
    readlinkSync := fun _ => none
    readJson := fun path =>
      if path = "./node_modules/a/package.json" then
        some { version := "1.2.0", peerDependencies := some ["b"], peerDependenciesMeta := none }
      else none
    statSync := fun path => some (enoent path) }

/-- As `emptyDirectory`, but `a` is installed at the locked version 1.2.0 and
requires the peer `b`, which is neither installed nor declared. -/
def peerDirectory : World :=
  { emptyDirectory with
    lstatSync := fun path => if path = "./node_modules/a" then some false else none
    readJson := fun path =>
      if path = "./node_modules/a/package.json" then
        some { version := "1.2.0", peerDependencies := some ["b"], peerDependenciesMeta := none }
      else none }

/-- The accumulators the loop leaves on `precedenceDirectory`. -/
def precedencePlan : Plan :=
  { installPackages := ["c@2.0.0"]
    errorPackages := ["b"]
    logs := [⟨Func.warn, "a requires b but is not installed, you must do this yourself, because I can't determine the version you need"⟩,
      ⟨Func.warn, "c is not installed, but found in lock file."⟩] }


/-- As `emptyDirectory`, but `a` is installed at the locked version 1.2.0: the
directory a successful `npm i a@1.2.0` leaves. -/
def installedDirectory : World :=
  { emptyDirectory with
    lstatSync := fun path => if path = "./node_modules/a" then some false else none
    readJson := fun path =>
      if path = "./node_modules/a/package.json" then
        some { version := "1.2.0", peerDependencies := none, peerDependenciesMeta := none }
      else none }

/-- Manifest `{c, a}`, lock `{a: "1.2.0", c: "2.0.0"}`: `a` and `c` are installed at
their locked versions and both require the peer `b`, which is neither installed
nor declared. -/
def sharedPeerDirectory : World :=
  { packageJson := some manifestCA
    packageLockJson := some lockAC
    lstatSync := fun path =>
      if path = "./node_modules/a" ∨ path = "./node_modules/c" then some false else none
    readlinkSync := fun _ => none
    readJson := fun path =>
      if path = "./node_modules/a/package.json" then
        some { version := "1.2.0", peerDependencies := some ["b"], peerDependenciesMeta := none }
      else if path = "./node_modules/c/package.json" then
        some { version := "2.0.0", peerDependencies := some ["b"], peerDependenciesMeta := none }
      else none
    statSync := fun path => some (enoent path) }

/-- Manifest `{c, a}`, lock `{a: "1.2.0", c: "2.0.0"}`, and an installation
directory with no entry at all. -/
def twoMissingDirectory : World :=
  { emptyDirectory with packageJson := some manifestCA, packageLockJson := some lockAC }

/-- As `emptyDirectory`, but `./package.json` cannot be read or parsed. -/
def unreadableManifest : World :=
  { emptyDirectory with packageJson := none }

/-- The manifest `{constructor: "^1.0.0"}`. -/
def manifestConstructor : PackageJson :=
  { dependencies := [("constructor", "^1.0.0")], devDependencies := [] }

/-- Manifest `{constructor: "^1.0.0"}`, a lock whose `dependencies` is `{}`, and an
installation directory with no entry at all. -/
def constructorDirectory : World :=
  { emptyDirectory with
    packageJson := some manifestConstructor
    packageLockJson := some { dependencies := some [] } }

/-- A host whose `console` has a method `event`, otherwise as `nodeHost`. -/
def eventHost : Host :=
  { nodeHost with consoleEvent := true }

/-! ## The ordering used by `sort()` -/

theorem unitsLe_total (a b : List Nat) : unitsLe a b = true ∨ unitsLe b a = true := by
  induction a generalizing b with
  | nil => left; rfl
  | cons x xs ih =>
    cases b with
    | nil => right; rfl
    | cons y ys =>
      rcases Nat.lt_trichotomy x y with hlt | heq | hgt
      · left; simp [unitsLe, hlt]
      · subst heq; simpa [unitsLe] using ih ys
      · right; simp [unitsLe, hgt]

theorem unitsLe_trans {a b c : List Nat} (hab : unitsLe a b = true) (hbc : unitsLe b c = true) :
    unitsLe a c = true := by
  induction a generalizing b c with
  | nil => rfl
  | cons x xs ih =>
    cases b with
    | nil => simp [unitsLe] at hab
    | cons y ys =>
      cases c with
      | nil => simp [unitsLe] at hbc
      | cons z zs =>
        simp only [unitsLe] at hab hbc ⊢
        split_ifs at hab hbc ⊢ <;> first | rfl | omega | exact ih hab hbc

theorem unitsLe_antisymm {a b : List Nat} (hab : unitsLe a b = true) (hba : unitsLe b a = true) :
    a = b := by
  induction a generalizing b with
  | nil =>
    cases b with
    | nil => rfl
    | cons y ys => simp [unitsLe] at hba
  | cons x xs ih =>
    cases b with
    | nil => simp [unitsLe] at hab
    | cons y ys =>
      simp only [unitsLe] at hab hba
      split_ifs at hab hba <;> first | omega | skip
      have hxy : x = y := by omega
      subst hxy
      rw [ih hab hba]

theorem char_toNat_valid (c : Char) :
    c.toNat < 0xD800 ∨ (0xDFFF < c.toNat ∧ c.toNat < 0x110000) := c.valid

theorem char_eq_of_toNat_eq {c d : Char} (h : c.toNat = d.toNat) : c = d := by
  have hc : Char.ofNat c.toNat = c := Char.ofNat_toNat c
  have hd : Char.ofNat d.toNat = d := Char.ofNat_toNat d
  rw [← hc, h, hd]

theorem flatMap_utf16_injective (l₁ l₂ : List Char)
    (h : l₁.flatMap utf16 = l₂.flatMap utf16) : l₁ = l₂ := by
  induction l₁ generalizing l₂ with
  | nil =>
    cases l₂ with
    | nil => rfl
    | cons d ds =>
      simp only [List.flatMap_nil, List.flatMap_cons, utf16] at h
      split_ifs at h <;> simp at h
  | cons c cs ih =>
    cases l₂ with
    | nil =>
      simp only [List.flatMap_nil, List.flatMap_cons, utf16] at h
      split_ifs at h <;> simp at h
    | cons d ds =>
      have hc := char_toNat_valid c
      have hd := char_toNat_valid d
      simp only [List.flatMap_cons, utf16] at h
      split_ifs at h with h1 h2 h2
      · simp only [List.singleton_append, List.cons.injEq] at h
        rw [char_eq_of_toNat_eq h.1, ih ds h.2]
      · simp only [List.singleton_append, List.cons_append, List.nil_append, List.cons.injEq] at h
        omega
      · simp only [List.singleton_append, List.cons_append, List.nil_append, List.cons.injEq] at h
        omega
      · simp only [List.cons_append, List.nil_append, List.cons.injEq] at h
        have hcd : c.toNat = d.toNat := by omega
        rw [char_eq_of_toNat_eq hcd, ih ds h.2.2]

theorem codeUnits_injective {a b : String} (h : codeUnits a = codeUnits b) : a = b :=
  String.ext (flatMap_utf16_injective a.toList b.toList h)

theorem jsLe_total : IsTotal String jsLe :=
  ⟨fun a b => unitsLe_total (codeUnits a) (codeUnits b)⟩

theorem jsLe_trans : IsTrans String jsLe :=
  ⟨fun _ _ _ hab hbc => unitsLe_trans hab hbc⟩

theorem jsLe_antisymm : IsAntisymm String jsLe :=
  ⟨fun _ _ hab hba => codeUnits_injective (unitsLe_antisymm hab hba)⟩

theorem jsLt_iff (a b : String) : jsLt a b ↔ jsLe a b ∧ a ≠ b := by
  unfold jsLt
  constructor
  · intro h
    refine ⟨?_, ?_⟩
    · rcases unitsLe_total (codeUnits a) (codeUnits b) with h1 | h1
      · exact h1
      · rw [h] at h1; cases h1
    · rintro rfl
      rcases unitsLe_total (codeUnits a) (codeUnits a) with h1 | h1 <;> rw [h] at h1 <;> cases h1
  · rintro ⟨hab, hne⟩
    cases hba : unitsLe (codeUnits b) (codeUnits a) with
    | false => rfl
    | true => exact absurd (codeUnits_injective (unitsLe_antisymm hab hba)) hne

theorem mem_dependencies (packageJson : PackageJson) (x : String) :
    x ∈ dependencies packageJson ↔
      x ∈ packageJson.dependencies.map Prod.fst ∨ x ∈ packageJson.devDependencies.map Prod.fst := by
  unfold dependencies objectKeysSpread
  rw [(List.perm_insertionSort jsLe _).mem_iff, List.mem_dedup, List.mem_append]

theorem nodup_dependencies (packageJson : PackageJson) : (dependencies packageJson).Nodup := by
  unfold dependencies objectKeysSpread
  exact (List.perm_insertionSort jsLe _).nodup_iff.mpr (List.nodup_dedup _)

theorem sorted_dependencies (packageJson : PackageJson) :
    (dependencies packageJson).Sorted jsLe :=
  haveI := jsLe_total
  haveI := jsLe_trans
  List.sorted_insertionSort jsLe _

theorem pairwise_jsLt_dependencies (packageJson : PackageJson) :
    (dependencies packageJson).Pairwise jsLt := by
  have hs : (dependencies packageJson).Pairwise jsLe := sorted_dependencies packageJson
  have hn : (dependencies packageJson).Pairwise (fun a b => a ≠ b) := nodup_dependencies packageJson
  exact (hs.and hn).imp fun {a b} hab => (jsLt_iff a b).mpr hab

/-! ## The error set -/

theorem mem_setAdd {s : List String} {x y : String} : y ∈ setAdd s x ↔ y ∈ s ∨ y = x := by
  unfold setAdd
  split_ifs with hx
  · constructor
    · exact Or.inl
    · rintro (hy | rfl)
      · exact hy
      · exact hx
  · simp

theorem nodup_setAdd {s : List String} (x : String) (hs : s.Nodup) : (setAdd s x).Nodup := by
  unfold setAdd
  split_ifs with hx
  · exact hs
  · exact List.nodup_append.mpr ⟨hs, List.nodup_singleton x, by
      intro a ha hax
      rw [List.mem_singleton] at hax
      exact hx (hax ▸ ha)⟩

theorem mem_foldl_setAdd (l s : List String) (y : String) :
    y ∈ l.foldl setAdd s ↔ y ∈ s ∨ y ∈ l := by
  induction l generalizing s with
  | nil => simp
  | cons x xs ih =>
    rw [List.foldl_cons, ih, mem_setAdd, List.mem_cons]
    tauto

theorem nodup_foldl_setAdd (l s : List String) (hs : s.Nodup) : (l.foldl setAdd s).Nodup := by
  induction l generalizing s with
  | nil => exact hs
  | cons x xs ih => exact ih _ (nodup_setAdd x hs)

/-! ## The peer audit -/

theorem foldl_auditPeer (w : World) (deps : List String) (d : String) (installed : Descriptor)
    (peers : List String) (acc : Plan) :
    peers.foldl (auditPeer w deps d installed) acc =
      { installPackages := acc.installPackages
        errorPackages :=
          ((peers.filterMap (failure w deps installed)).map Prod.fst).foldl setAdd
            acc.errorPackages
        logs := acc.logs ++
          (peers.filterMap (failure w deps installed)).map fun pe => peerLog d pe.1 pe.2 } := by
  induction peers generalizing acc with
  | nil => simp
  | cons p ps ih =>
    rw [List.foldl_cons, ih]
    unfold auditPeer failure
    cases hc : probed deps installed p with
    | false => simp [List.filterMap_cons, hc]
    | true =>
      cases hs : w.statSync (peerDependencyPackagePath p) with
      | none => simp [List.filterMap_cons, hc, hs]
      | some e => simp [List.filterMap_cons, hc, hs]

theorem auditPeers_eq (w : World) (deps : List String) (d : String) (installed : Descriptor)
    (acc : Plan) :
    auditPeers w deps d installed acc =
      { installPackages := acc.installPackages
        errorPackages := ((failures w deps installed).map Prod.fst).foldl setAdd acc.errorPackages
        logs := acc.logs ++ (failures w deps installed).map fun pe => peerLog d pe.1 pe.2 } := by
  unfold auditPeers failures
  cases installed.peerDependencies with
  | none => simp
  | some peers => exact foldl_auditPeer w deps d installed peers acc

/-! ## The callback, case by case -/

theorem visit_throw (h : Host) (w : World) (deps : List String) (acc : Plan) (d : String) :
    visit h w ⟨none⟩ deps acc d = Step.throw := rfl

theorem readProperty_entry (L : List (String × LockEntry)) (d : String) (needed : LockEntry)
    (hn : L.lookup d = some needed) : readProperty L d = some (Needed.entry needed) := by
  simp [readProperty, hn]

theorem readProperty_inherited (L : List (String × LockEntry)) (d : String)
    (hn : L.lookup d = none) (hk : d ∈ objectPrototypeKeys) :
    readProperty L d = some Needed.inherited := by
  simp [readProperty, hn, hk]

theorem readProperty_undefined (L : List (String × LockEntry)) (d : String)
    (hn : L.lookup d = none) (hk : d ∉ objectPrototypeKeys) : readProperty L d = none := by
  simp [readProperty, hn, hk]

theorem visit_unlocked (h : Host) (w : World) (L : List (String × LockEntry))
    (deps : List String) (acc : Plan) (d : String) (hn : L.lookup d = none)
    (hk : d ∉ objectPrototypeKeys) :
    visit h w ⟨some L⟩ deps acc d =
      Step.exit (-1) { acc with logs := acc.logs ++ [unlockedLog d] } := by
  simp [visit, readProperty_undefined L d hn hk]

theorem visit_mismatch (h : Host) (w : World) (L : List (String × LockEntry))
    (deps : List String) (acc : Plan) (d : String) (needed : LockEntry) (linked : Option String)
    (installed : Descriptor) (hn : L.lookup d = some needed)
    (hi : inspect h w d = (linked, some installed)) (hv : installed.version ≠ needed.version) :
    visit h w ⟨some L⟩ deps acc d =
      Step.next { acc with
        installPackages := acc.installPackages ++ [token d needed.version]
        logs := acc.logs ++ [mismatchLog h d installed.version (h.bold needed.version)] } := by
  simp [visit, readProperty_entry L d needed hn, hi, hv, Needed.version, boldNeeded, interpolate]

theorem visit_match (h : Host) (w : World) (L : List (String × LockEntry))
    (deps : List String) (acc : Plan) (d : String) (needed : LockEntry) (linked : Option String)
    (installed : Descriptor) (hn : L.lookup d = some needed)
    (hi : inspect h w d = (linked, some installed)) (hv : installed.version = needed.version) :
    visit h w ⟨some L⟩ deps acc d = Step.next (auditPeers w deps d installed acc) := by
  simp [visit, readProperty_entry L d needed hn, hi, hv, Needed.version]

theorem visit_linked (h : Host) (w : World) (L : List (String × LockEntry))
    (deps : List String) (acc : Plan) (d : String) (needed : LockEntry) (linked : String)
    (hn : L.lookup d = some needed) (hi : inspect h w d = (some linked, none))
    (hl : linked ≠ "") :
    visit h w ⟨some L⟩ deps acc d =
      Step.next { acc with logs := acc.logs ++ [linkedLog h d linked] } := by
  simp [visit, readProperty_entry L d needed hn, hi, hl]

theorem visit_missing (h : Host) (w : World) (L : List (String × LockEntry))
    (deps : List String) (acc : Plan) (d : String) (needed : LockEntry) (linked : Option String)
    (hn : L.lookup d = some needed) (hi : inspect h w d = (linked, none))
    (hl : linked = none ∨ linked = some "") :
    visit h w ⟨some L⟩ deps acc d =
      Step.next { acc with
        installPackages := acc.installPackages ++ [token d needed.version]
        logs := acc.logs ++ [missingLog d] } := by
  rcases hl with rfl | rfl <;>
    simp [visit, readProperty_entry L d needed hn, hi, Needed.version, interpolate]

/-- The callback on a dependency that the lock does not hold but whose name is
inherited from `Object.prototype`: the lock check of line 57 passes, and the
dependency is treated as locked at the version `undefined`. -/
theorem visit_inherited (h : Host) (w : World) (L : List (String × LockEntry))
    (deps : List String) (acc : Plan) (d : String) (linked : Option String)
    (installed : Option Descriptor) (hn : L.lookup d = none) (hk : d ∈ objectPrototypeKeys)
    (hi : inspect h w d = (linked, installed)) :
    visit h w ⟨some L⟩ deps acc d = inheritedStep h d linked installed acc := by
  cases installed with
  | some installed =>
    simp [visit, readProperty_inherited L d hn hk, hi, Needed.version, boldNeeded, interpolate,
      inheritedStep]
  | none =>
    cases linked with
    | none =>
      simp [visit, readProperty_inherited L d hn hk, hi, Needed.version, interpolate,
        inheritedStep]
    | some linked =>
      by_cases hl : linked = ""
      · simp [visit, readProperty_inherited L d hn hk, hi, Needed.version, interpolate,
          inheritedStep, hl]
      · simp [visit, readProperty_inherited L d hn hk, hi, Needed.version, interpolate,
          inheritedStep, hl]

/-- What `inheritedStep` does, uniformly in the accumulators: it throws, or it
appends at most the one token `d@undefined` and some logs, and leaves the error
set alone. -/
theorem inheritedStep_shape (h : Host) (d : String) (linked : Option String)
    (installed : Option Descriptor) :
    (∀ acc, inheritedStep h d linked installed acc = Step.throw) ∨
    ∃ installs logs, (installs = [] ∨ installs = [token d "undefined"]) ∧
      ∀ acc, inheritedStep h d linked installed acc =
        Step.next ⟨acc.installPackages ++ installs, acc.errorPackages, acc.logs ++ logs⟩ := by
  cases installed with
  | some installed =>
    cases hb : h.boldUndefined with
    | none => left; intro acc; simp [inheritedStep, hb]
    | some b =>
      right
      exact ⟨[token d "undefined"], [mismatchLog h d installed.version b], Or.inr rfl,
        fun acc => by simp [inheritedStep, hb]⟩
  | none =>
    right
    cases linked with
    | none =>
      exact ⟨[token d "undefined"], [missingLog d], Or.inr rfl,
        fun acc => by simp [inheritedStep]⟩
    | some linked =>
      by_cases hl : linked = ""
      · exact ⟨[token d "undefined"], [missingLog d], Or.inr rfl,
          fun acc => by simp [inheritedStep, hl]⟩
      · exact ⟨[], [linkedLog h d linked], Or.inl rfl,
          fun acc => by simp [inheritedStep, hl]⟩

/-- The callback on an inherited name, uniformly in the accumulators. -/
theorem visit_inherited_shape (h : Host) (w : World) (L : List (String × LockEntry))
    (deps : List String) (d : String) (hn : L.lookup d = none) (hk : d ∈ objectPrototypeKeys) :
    (∀ acc, visit h w ⟨some L⟩ deps acc d = Step.throw) ∨
    ∃ installs logs, (installs = [] ∨ installs = [token d "undefined"]) ∧
      ∀ acc, visit h w ⟨some L⟩ deps acc d =
        Step.next ⟨acc.installPackages ++ installs, acc.errorPackages, acc.logs ++ logs⟩ := by
  rcases hi : inspect h w d with ⟨linked, installed⟩
  rcases inheritedStep_shape h d linked installed with hthrow | ⟨installs, logs, hform, hnext⟩
  · left
    intro acc
    rw [visit_inherited h w L deps acc d linked installed hn hk hi, hthrow]
  · right
    refine ⟨installs, logs, hform, fun acc => ?_⟩
    rw [visit_inherited h w L deps acc d linked installed hn hk hi, hnext]

/-- The callback started on any accumulators ends the way it ends on the empty
ones, and appends to them what it adds to the empty ones. -/
theorem visit_frame (h : Host) (w : World) (lock : PackageLock) (deps : List String)
    (acc : Plan) (d : String) :
    (∀ acc', visit h w lock deps acc d = Step.next acc' →
      (∃ c, visit h w lock deps Plan.empty d = Step.next c) ∧
      acc'.installPackages = acc.installPackages ++ (contribution h w lock deps d).installPackages ∧
      acc'.logs = acc.logs ++ (contribution h w lock deps d).logs ∧
      (∀ x, x ∈ acc'.errorPackages ↔
        x ∈ acc.errorPackages ∨ x ∈ (contribution h w lock deps d).errorPackages) ∧
      (acc.errorPackages.Nodup → acc'.errorPackages.Nodup)) := by
  intro acc' hv
  obtain ⟨L⟩ := lock
  cases L with
  | none => simp [visit] at hv
  | some L =>
    cases hn : L.lookup d with
    | none =>
      by_cases hk : d ∈ objectPrototypeKeys
      · rcases visit_inherited_shape h w L deps d hn hk with hthrow | ⟨installs, logs, -, hnext⟩
        · rw [hthrow] at hv; cases hv
        · rw [hnext] at hv
          injection hv with hv
          subst hv
          unfold contribution
          rw [hnext]
          simp [Plan.empty]
      · rw [visit_unlocked h w L deps acc d hn hk] at hv; cases hv
    | some needed =>
      rcases hi : inspect h w d with ⟨linked, installed⟩
      cases installed with
      | some installed =>
        by_cases hver : installed.version = needed.version
        · rw [visit_match h w L deps acc d needed linked installed hn hi hver] at hv
          injection hv with hv
          subst hv
          unfold contribution
          rw [visit_match h w L deps Plan.empty d needed linked installed hn hi hver]
          simp only [auditPeers_eq, Plan.empty, List.nil_append, mem_foldl_setAdd,
            List.not_mem_nil, false_or]
          exact ⟨⟨_, rfl⟩, by simp, trivial, fun _ => trivial, nodup_foldl_setAdd _ _⟩
        · rw [visit_mismatch h w L deps acc d needed linked installed hn hi hver] at hv
          injection hv with hv
          subst hv
          unfold contribution
          rw [visit_mismatch h w L deps Plan.empty d needed linked installed hn hi hver]
          simp [Plan.empty]
      | none =>
        by_cases hl : linked = none ∨ linked = some ""
        · rw [visit_missing h w L deps acc d needed linked hn hi hl] at hv
          injection hv with hv
          subst hv
          unfold contribution
          rw [visit_missing h w L deps Plan.empty d needed linked hn hi hl]
          simp [Plan.empty]
        · cases linked with
          | none => exact absurd (Or.inl rfl) hl
          | some linked =>
            have hne : linked ≠ "" := fun hc => hl (Or.inr (by rw [hc]))
            rw [visit_linked h w L deps acc d needed linked hn hi hne] at hv
            injection hv with hv
            subst hv
            unfold contribution
            rw [visit_linked h w L deps Plan.empty d needed linked hn hi hne]
            simp [Plan.empty]

theorem visit_locked (h : Host) (w : World) (L : List (String × LockEntry))
    (deps : List String) (acc : Plan) (d : String) (hn : L.lookup d ≠ none) :
    ∃ acc', visit h w ⟨some L⟩ deps acc d = Step.next acc' := by
  cases hl : L.lookup d with
  | none => exact absurd hl hn
  | some needed =>
    rcases hi : inspect h w d with ⟨linked, installed⟩
    cases installed with
    | some installed =>
      by_cases hver : installed.version = needed.version
      · exact ⟨_, visit_match h w L deps acc d needed linked installed hl hi hver⟩
      · exact ⟨_, visit_mismatch h w L deps acc d needed linked installed hl hi hver⟩
    | none =>
      by_cases hk : linked = none ∨ linked = some ""
      · exact ⟨_, visit_missing h w L deps acc d needed linked hl hi hk⟩
      · cases linked with
        | none => exact absurd (Or.inl rfl) hk
        | some linked =>
          exact ⟨_, visit_linked h w L deps acc d needed linked hl hi
            (fun hc => hk (Or.inr (by rw [hc])))⟩

/-! ## The loop -/

theorem forEach_next (h : Host) (w : World) (lock : PackageLock) (deps : List String)
    (ds : List String) (acc plan : Plan)
    (hrun : forEach (visit h w lock deps) ds acc = Step.next plan) :
    plan.installPackages =
        acc.installPackages ++ ds.flatMap (fun d => (contribution h w lock deps d).installPackages) ∧
    plan.logs = acc.logs ++ ds.flatMap (fun d => (contribution h w lock deps d).logs) ∧
    (∀ x, x ∈ plan.errorPackages ↔
      x ∈ acc.errorPackages ∨ ∃ d ∈ ds, x ∈ (contribution h w lock deps d).errorPackages) ∧
    (acc.errorPackages.Nodup → plan.errorPackages.Nodup) := by
  induction ds generalizing acc with
  | nil =>
    simp only [forEach] at hrun
    injection hrun with hrun
    subst hrun
    simp
  | cons d ds ih =>
    simp only [forEach] at hrun
    cases hv : visit h w lock deps acc d with
    | throw => rw [hv] at hrun; cases hrun
    | exit code acc' => rw [hv] at hrun; cases hrun
    | next acc' =>
      rw [hv] at hrun
      obtain ⟨_, hi, hl, he, hn⟩ := visit_frame h w lock deps acc d acc' hv
      obtain ⟨ri, rl, re, rn⟩ := ih acc' hrun
      refine ⟨?_, ?_, ?_, fun hnd => rn (hn hnd)⟩
      · rw [ri, hi, List.flatMap_cons, List.append_assoc]
      · rw [rl, hl, List.flatMap_cons, List.append_assoc]
      · intro x
        rw [re, he]
        simp only [List.mem_cons, exists_eq_or_imp]
        tauto

theorem forEach_locked (h : Host) (w : World) (L : List (String × LockEntry))
    (deps : List String) (ds : List String) (acc : Plan)
    (hall : ∀ d ∈ ds, L.lookup d ≠ none) :
    ∃ plan, forEach (visit h w ⟨some L⟩ deps) ds acc = Step.next plan := by
  induction ds generalizing acc with
  | nil => exact ⟨acc, rfl⟩
  | cons d ds ih =>
    obtain ⟨acc', hv⟩ := visit_locked h w L deps acc d (hall d (List.mem_cons_self d ds))
    obtain ⟨plan, hp⟩ := ih acc' fun x hx => hall x (List.mem_cons_of_mem d hx)
    exact ⟨plan, by simp only [forEach, hv, hp]⟩

theorem forEach_unlocked (h : Host) (w : World) (L : List (String × LockEntry))
    (deps : List String) (ds : List String) (acc : Plan)
    (hex : ∃ d ∈ ds, L.lookup d = none)
    (hown : ∀ d ∈ ds, L.lookup d = none → d ∉ objectPrototypeKeys) :
    ∃ acc', forEach (visit h w ⟨some L⟩ deps) ds acc = Step.exit (-1) acc' := by
  induction ds generalizing acc with
  | nil => obtain ⟨d, hd, _⟩ := hex; cases hd
  | cons d ds ih =>
    cases hl : L.lookup d with
    | none =>
      exact ⟨{ acc with logs := acc.logs ++ [unlockedLog d] }, by
        simp only [forEach, visit_unlocked h w L deps acc d hl
          (hown d (List.mem_cons_self d ds) hl)]⟩
    | some needed =>
      obtain ⟨acc', hv⟩ := visit_locked h w L deps acc d (by rw [hl]; exact Option.some_ne_none _)
      have hex' : ∃ x ∈ ds, L.lookup x = none := by
        obtain ⟨x, hx, hxn⟩ := hex
        rcases List.mem_cons.mp hx with rfl | hx
        · rw [hl] at hxn; cases hxn
        · exact ⟨x, hx, hxn⟩
      obtain ⟨acc'', hp⟩ := ih acc' hex' fun x hx => hown x (List.mem_cons_of_mem d hx)
      exact ⟨acc'', by simp only [forEach, hv, hp]⟩

/-- The plan of a pass that completes its loop: the install list and the logs
are the concatenation, in the order of the sorted dependencies, of what each
dependency contributes; the error set has no duplicate and holds exactly the
names some dependency contributes. -/
theorem classify_next (h : Host) (w : World) (packageJson : PackageJson) (lock : PackageLock)
    (plan : Plan) (hrun : classify h w packageJson lock = Step.next plan) :
    plan.installPackages = (dependencies packageJson).flatMap
        (fun d => (contribution h w lock (dependencies packageJson) d).installPackages) ∧
    plan.logs = (dependencies packageJson).flatMap
        (fun d => (contribution h w lock (dependencies packageJson) d).logs) ∧
    (∀ x, x ∈ plan.errorPackages ↔ ∃ d ∈ dependencies packageJson,
        x ∈ (contribution h w lock (dependencies packageJson) d).errorPackages) ∧
    plan.errorPackages.Nodup := by
  obtain ⟨hi, hl, he, hn⟩ := forEach_next h w lock _ _ _ _ hrun
  refine ⟨by simpa [Plan.empty] using hi, by simpa [Plan.empty] using hl, ?_,
    hn (by simp [Plan.empty])⟩
  intro x
  rw [he]
  simp [Plan.empty]

theorem classify_locked (h : Host) (w : World) (packageJson : PackageJson)
    (L : List (String × LockEntry))
    (hall : ∀ d ∈ dependencies packageJson, L.lookup d ≠ none) :
    ∃ plan, classify h w packageJson ⟨some L⟩ = Step.next plan :=
  forEach_locked h w L _ _ _ hall

/-! ## What one dependency contributes -/

theorem inspect_absent (h : Host) (w : World) (d : String)
    (hlink : w.lstatSync (dependencyPath d) ≠ some true)
    (hdesc : w.readJson (dependencyPackagePath d) = none) :
    inspect h w d = (none, none) := by
  unfold inspect
  cases hs : w.lstatSync (dependencyPath d) with
  | none => rfl
  | some b =>
    cases b with
    | true => exact absurd hs hlink
    | false => simp [hdesc]

theorem inspect_installed (h : Host) (w : World) (d : String) (installed : Descriptor)
    (hlink : w.lstatSync (dependencyPath d) = some false)
    (hdesc : w.readJson (dependencyPackagePath d) = some installed) :
    inspect h w d = (none, some installed) := by
  simp [inspect, hlink, hdesc]

theorem contribution_missing (h : Host) (w : World) (L : List (String × LockEntry))
    (deps : List String) (d : String) (needed : LockEntry) (linked : Option String)
    (hn : L.lookup d = some needed) (hi : inspect h w d = (linked, none))
    (hl : linked = none ∨ linked = some "") :
    contribution h w ⟨some L⟩ deps d = ⟨[token d needed.version], [], [missingLog d]⟩ := by
  unfold contribution
  rw [visit_missing h w L deps Plan.empty d needed linked hn hi hl]
  rfl

theorem contribution_mismatch (h : Host) (w : World) (L : List (String × LockEntry))
    (deps : List String) (d : String) (needed : LockEntry) (linked : Option String)
    (installed : Descriptor) (hn : L.lookup d = some needed)
    (hi : inspect h w d = (linked, some installed)) (hv : installed.version ≠ needed.version) :
    contribution h w ⟨some L⟩ deps d =
      ⟨[token d needed.version], [],
        [mismatchLog h d installed.version (h.bold needed.version)]⟩ := by
  unfold contribution
  rw [visit_mismatch h w L deps Plan.empty d needed linked installed hn hi hv]
  rfl

theorem contribution_match (h : Host) (w : World) (L : List (String × LockEntry))
    (deps : List String) (d : String) (needed : LockEntry) (linked : Option String)
    (installed : Descriptor) (hn : L.lookup d = some needed)
    (hi : inspect h w d = (linked, some installed)) (hv : installed.version = needed.version) :
    contribution h w ⟨some L⟩ deps d =
      ⟨[], ((failures w deps installed).map Prod.fst).foldl setAdd [],
        (failures w deps installed).map fun pe => peerLog d pe.1 pe.2⟩ := by
  unfold contribution
  rw [visit_match h w L deps Plan.empty d needed linked installed hn hi hv, auditPeers_eq]
  simp [Plan.empty]

theorem contribution_linked (h : Host) (w : World) (L : List (String × LockEntry))
    (deps : List String) (d : String) (needed : LockEntry) (linked : String)
    (hn : L.lookup d = some needed) (hi : inspect h w d = (some linked, none))
    (hl : linked ≠ "") :
    contribution h w ⟨some L⟩ deps d = ⟨[], [], [linkedLog h d linked]⟩ := by
  unfold contribution
  rw [visit_linked h w L deps Plan.empty d needed linked hn hi hl]
  rfl

theorem contribution_unlocked (h : Host) (w : World) (L : List (String × LockEntry))
    (deps : List String) (d : String) (hn : L.lookup d = none) (hk : d ∉ objectPrototypeKeys) :
    contribution h w ⟨some L⟩ deps d = ⟨[], [], [unlockedLog d]⟩ := by
  unfold contribution
  rw [visit_unlocked h w L deps Plan.empty d hn hk]
  rfl

/-- What a dependency with an inherited name and no lock entry contributes:
nothing when the callback throws, otherwise at most the token `d@undefined`, some
logs and no error. -/
theorem contribution_inherited (h : Host) (w : World) (L : List (String × LockEntry))
    (deps : List String) (d : String) (hn : L.lookup d = none) (hk : d ∈ objectPrototypeKeys) :
    ((contribution h w ⟨some L⟩ deps d).installPackages = [] ∨
      (contribution h w ⟨some L⟩ deps d).installPackages = [token d "undefined"]) ∧
    (contribution h w ⟨some L⟩ deps d).errorPackages = [] := by
  unfold contribution
  rcases visit_inherited_shape h w L deps d hn hk with hthrow | ⟨installs, logs, hform, hnext⟩
  · rw [hthrow]
    exact ⟨Or.inl rfl, rfl⟩
  · rw [hnext]
    simpa [Plan.empty] using hform

/-- The install tokens a dependency contributes: none, or the one token made of
its own name and the version read from what line 40 found: the version of its
lock entry, or `undefined` when the lock has no entry and the name is inherited
from `Object.prototype`. -/
theorem contribution_installPackages (h : Host) (w : World) (L : List (String × LockEntry))
    (deps : List String) (d : String) :
    (contribution h w ⟨some L⟩ deps d).installPackages = [] ∨
      (∃ needed, L.lookup d = some needed ∧
        (contribution h w ⟨some L⟩ deps d).installPackages = [token d needed.version]) ∨
      (L.lookup d = none ∧ d ∈ objectPrototypeKeys ∧
        (contribution h w ⟨some L⟩ deps d).installPackages = [token d "undefined"]) := by
  cases hn : L.lookup d with
  | none =>
    by_cases hk : d ∈ objectPrototypeKeys
    · rcases (contribution_inherited h w L deps d hn hk).1 with h0 | h1
      · exact Or.inl h0
      · exact Or.inr (Or.inr ⟨rfl, hk, h1⟩)
    · left; rw [contribution_unlocked h w L deps d hn hk]
  | some needed =>
    rcases hi : inspect h w d with ⟨linked, installed⟩
    cases installed with
    | some installed =>
      by_cases hver : installed.version = needed.version
      · left; rw [contribution_match h w L deps d needed linked installed hn hi hver]
      · right; left
        exact ⟨needed, rfl, by
          rw [contribution_mismatch h w L deps d needed linked installed hn hi hver]⟩
    | none =>
      by_cases hk : linked = none ∨ linked = some ""
      · right; left
        exact ⟨needed, rfl, by rw [contribution_missing h w L deps d needed linked hn hi hk]⟩
      · cases linked with
        | none => exact absurd (Or.inl rfl) hk
        | some linked =>
          left
          rw [contribution_linked h w L deps d needed linked hn hi
            (fun hc => hk (Or.inr (by rw [hc])))]

theorem count_flatMap_of_unique {α β : Type} [DecidableEq α] [DecidableEq β] (f : α → List β)
    (l : List α) (d : α) (t : β) (hn : l.Nodup) (hd : d ∈ l) (hf : (f d).count t = 1)
    (hother : ∀ x ∈ l, x ≠ d → t ∉ f x) : (l.flatMap f).count t = 1 := by
  induction l with
  | nil => cases hd
  | cons a as ih =>
    rw [List.flatMap_cons, List.count_append]
    rw [List.nodup_cons] at hn
    by_cases had : a = d
    · subst had
      have hrest : (as.flatMap f).count t = 0 := by
        rw [List.count_eq_zero]
        intro hmem
        obtain ⟨x, hx, htx⟩ := List.mem_flatMap.mp hmem
        exact hother x (List.mem_cons_of_mem _ hx) (fun hxa => hn.1 (hxa ▸ hx)) htx
      rw [hf, hrest]
    · have hd' : d ∈ as := by
        rcases List.mem_cons.mp hd with rfl | hd'
        · exact absurd rfl had
        · exact hd'
      have ha0 : (f a).count t = 0 :=
        List.count_eq_zero.mpr (hother a (List.mem_cons_self a as) had)
      rw [ha0, ih hn.2 hd' fun x hx => hother x (List.mem_cons_of_mem _ hx)]

/-! ## Linked dependencies (C1) -/

/-- On a host that binds neither `path` nor `__filename`, the `try` block never
leaves a value in `linked`. -/
theorem inspect_nodeHost_linked (w : World) (d : String) : (inspect nodeHost w d).1 = none := by
  unfold inspect
  cases w.lstatSync (dependencyPath d) with
  | none => rfl
  | some b =>
    cases b with
    | false => rfl
    | true => cases w.readlinkSync (dependencyPath d) <;> rfl

/-- On a host that binds `path` and `__filename`, a locked dependency whose path
is a symbolic link, resolved to a non-empty target, contributes no install
token and exactly the one `info` log of line 104. -/
theorem contribution_symlink_bound_host (h : Host) (w : World) (L : List (String × LockEntry))
    (deps : List String) (d link : String) (needed : LockEntry) (path : PathModule)
    (filename : String) (hp : h.path = some path) (hf : h.filename = some filename)
    (hn : L.lookup d = some needed) (hs : w.lstatSync (dependencyPath d) = some true)
    (hr : w.readlinkSync (dependencyPath d) = some link)
    (hne : path.resolve (path.basename filename) "node_modules" link ≠ "") :
    contribution h w ⟨some L⟩ deps d =
      ⟨[], [], [linkedLog h d (path.resolve (path.basename filename) "node_modules" link)]⟩ := by
  apply contribution_linked h w L deps d needed _ hn _ hne
  simp [inspect, hs, hr, resolveLinked, hp, hf]

/-- On Node.js every locked dependency whose path is a symbolic link is
classified as not installed, whatever the link points to. -/
theorem contribution_symlink_nodeHost (w : World) (L : List (String × LockEntry))
    (deps : List String) (d : String) (needed : LockEntry)
    (hn : L.lookup d = some needed) (hs : w.lstatSync (dependencyPath d) = some true) :
    contribution nodeHost w ⟨some L⟩ deps d =
      ⟨[token d needed.version], [], [missingLog d]⟩ := by
  apply contribution_missing nodeHost w L deps d needed none hn _ (Or.inl rfl)
  unfold inspect
  rw [hs]
  cases w.readlinkSync (dependencyPath d) <;> rfl

/-- C1, evaluated on the code. Manifest `{a: "^1.0.0"}`, lock `{a: "1.2.0"}`,
`./node_modules/a` a symbolic link to `../../a`, the module run by Node.js:
line 51 refers to `path`, which the module never imports, the `ReferenceError`
is swallowed by the empty `catch`, `linked` stays undefined, and the linked
dependency is classified as not installed: the install list is `[a@1.2.0]`
and the only log is the `warn` of line 109, not the `info` of line 104. -/
theorem linked_dependency_is_queued_on_node :
    linkedDirectory.lstatSync "./node_modules/a" = some true ∧
    inspect nodeHost linkedDirectory "a" = (none, none) ∧
    classify nodeHost linkedDirectory manifestA lockA =
      Step.next
        { installPackages := ["a@1.2.0"]
          errorPackages := []
          logs := [⟨Func.warn, "a is not installed, but found in lock file."⟩] } := by
  decide

/-! ## Dependencies missing from the lock (C2) -/

/-- Whatever the pass, when some dependency has no entry in the lock's
`dependencies`, and no dependency without entry has a name inherited from
`Object.prototype`, the loop ends the process with `process.exit(-1)`, and the
run consists of the opening message of a first pass at most: the buffered
logs, the error of line 114 among them, are never written. -/
theorem checkPackages_unlocked (h : Host) (prompt : Option Bool) (exec : String → Installation)
    (autofixEnabled : Bool) (w : World) (packageJson : PackageJson)
    (L : List (String × LockEntry)) (hp : w.packageJson = some packageJson)
    (hl : w.packageLockJson = some ⟨some L⟩)
    (hex : ∃ d ∈ dependencies packageJson, L.lookup d = none)
    (hown : ∀ d ∈ dependencies packageJson, L.lookup d = none → d ∉ objectPrototypeKeys) :
    checkPackages h prompt exec autofixEnabled w =
      ⟨if autofixEnabled then [Event.console Func.info "Checking for outdated packages"] else [],
        Outcome.exited (-1)⟩ := by
  obtain ⟨acc, hacc⟩ := forEach_unlocked h w L (dependencies packageJson)
    (dependencies packageJson) Plan.empty hex hown
  rw [checkPackages]
  simp only [hp, hl, classify, hacc]

/-- C2, evaluated on the code. Manifest `{a: "^1.0.0"}`, lock with empty
`dependencies`: the loop pushes the error naming `a` on the buffer `logs` and
calls `process.exit(-1)` at once (lines 114-115); the buffer is only written
to the console after the loop (lines 120-123), so the run writes nothing
naming `a`: its only output is the opening message, then the process ends with
status -1, without prompt and without installer. -/
theorem unlocked_dependency_exits_before_logging (h : Host) (prompt : Option Bool)
    (exec : String → Installation) :
    classify h unlockedDirectory manifestA ⟨some []⟩ =
      Step.exit (-1)
        { installPackages := []
          errorPackages := []
          logs := [⟨Func.error, "Found a in package.json, but was not found in lock file"⟩] } ∧
    checkPackages h prompt exec true unlockedDirectory =
      ⟨[Event.console Func.info "Checking for outdated packages"], Outcome.exited (-1)⟩ ∧
    checkPackages h prompt exec false unlockedDirectory = ⟨[], Outcome.exited (-1)⟩ := by
  refine ⟨by rfl, ?_, ?_⟩
  · rw [checkPackages]; rfl
  · rw [checkPackages]; rfl

/-! ## Missing and outdated dependencies (C3, C4) -/

/-- C3. In a pass in which every manifest dependency is locked, a dependency `d`
locked at `v` that is absent from the installation directory (its path is no
symbolic link and no descriptor can be read there) is queued: the loop
completes; its install list and its logs are the concatenation, over the
sorted dependencies, of what each contributes; `d` occurs once among them and
contributes exactly the token `d@v` and the `warn` log
"d is not installed, but found in lock file."; so the token is in the install
list and the log is in the logs, and the token occurs exactly once in the
install list as soon as no other dependency renders to the same string.
In the scenario (manifest `{a: "^1.0.0"}`, lock `{a: "1.2.0"}`, empty
directory) the plan is exactly `[a@1.2.0]`, no error, the one `warn` log. -/
theorem absent_dependency_is_queued :
    (∀ (h : Host) (w : World) (packageJson : PackageJson) (L : List (String × LockEntry))
      (d v : String),
      (∀ x ∈ dependencies packageJson, L.lookup x ≠ none) →
      d ∈ dependencies packageJson →
      L.lookup d = some ⟨v⟩ →
      w.lstatSync (dependencyPath d) ≠ some true →
      w.readJson (dependencyPackagePath d) = none →
      ∃ plan, classify h w packageJson ⟨some L⟩ = Step.next plan ∧
        plan.installPackages = (dependencies packageJson).flatMap
          (fun x => (contribution h w ⟨some L⟩ (dependencies packageJson) x).installPackages) ∧
        plan.logs = (dependencies packageJson).flatMap
          (fun x => (contribution h w ⟨some L⟩ (dependencies packageJson) x).logs) ∧
        (dependencies packageJson).count d = 1 ∧
        contribution h w ⟨some L⟩ (dependencies packageJson) d =
          ⟨[d ++ "@" ++ v], [], [⟨Func.warn, d ++ " is not installed, but found in lock file."⟩]⟩ ∧
        d ++ "@" ++ v ∈ plan.installPackages ∧
        ⟨Func.warn, d ++ " is not installed, but found in lock file."⟩ ∈ plan.logs ∧
        ((∀ x ∈ dependencies packageJson, ∀ e, L.lookup x = some e →
            x ++ "@" ++ e.version = d ++ "@" ++ v → x = d) →
          plan.installPackages.count (d ++ "@" ++ v) = 1)) ∧
    (∀ h : Host, classify h emptyDirectory manifestA lockA =
      Step.next
        { installPackages := ["a@1.2.0"]
          errorPackages := []
          logs := [⟨Func.warn, "a is not installed, but found in lock file."⟩] }) := by
  refine ⟨?_, fun h => by rfl⟩
  intro h w packageJson L d v hall hd hv hlink hdesc
  obtain ⟨plan, hplan⟩ := classify_locked h w packageJson L hall
  obtain ⟨hi, hl, -, -⟩ := classify_next h w packageJson ⟨some L⟩ plan hplan
  have hc : contribution h w ⟨some L⟩ (dependencies packageJson) d =
      ⟨[d ++ "@" ++ v], [], [⟨Func.warn, d ++ " is not installed, but found in lock file."⟩]⟩ :=
    contribution_missing h w L _ d ⟨v⟩ none hv (inspect_absent h w d hlink hdesc) (Or.inl rfl)
  refine ⟨plan, hplan, hi, hl, List.count_eq_one_of_mem (nodup_dependencies packageJson) hd, hc,
    ?_, ?_, ?_⟩
  · rw [hi, List.mem_flatMap]
    exact ⟨d, hd, by rw [hc]; exact List.mem_singleton_self _⟩
  · rw [hl, List.mem_flatMap]
    exact ⟨d, hd, by rw [hc]; exact List.mem_singleton_self _⟩
  · intro huniq
    rw [hi]
    apply count_flatMap_of_unique _ _ d _ (nodup_dependencies packageJson) hd
    · rw [hc]; simp
    · intro x hx hxd hmem
      rcases contribution_installPackages h w L (dependencies packageJson) x with
        h0 | ⟨e, he, h1⟩ | ⟨hnone, -, -⟩
      · rw [h0] at hmem; cases hmem
      · rw [h1, List.mem_singleton] at hmem
        exact hxd (huniq x hx e he hmem.symm)
      · exact absurd hnone (hall x hx)

/-- C3 at the scenario: `a` is locked at 1.2.0 and absent from the empty
directory, so `a@1.2.0` is in the install list exactly once. -/
theorem absent_dependency_is_queued_witness :
    (∀ x ∈ dependencies manifestA, List.lookup x [("a", (⟨"1.2.0"⟩ : LockEntry))] ≠ none) ∧
    "a" ∈ dependencies manifestA ∧
    ∃ plan, classify nodeHost emptyDirectory manifestA lockA = Step.next plan ∧
      "a@1.2.0" ∈ plan.installPackages ∧
      plan.installPackages.count "a@1.2.0" = 1 ∧
      ⟨Func.warn, "a is not installed, but found in lock file."⟩ ∈ plan.logs := by
  refine ⟨by decide, by decide, ?_⟩
  obtain ⟨plan, hp, -, -, -, -, hmem, hlog, hcount⟩ :=
    absent_dependency_is_queued.1 nodeHost emptyDirectory manifestA [("a", ⟨"1.2.0"⟩)] "a" "1.2.0"
      (by decide) (by decide) (by decide) (by decide) (by decide)
  exact ⟨plan, hp, hmem, hcount (by decide), hlog⟩

/-- C4. In a pass in which every manifest dependency is locked, a dependency `d`
whose installed descriptor declares a version different from the locked version
`locked` is queued at the locked version: the loop completes; install list and
logs are the concatenation, over the sorted dependencies, of what each
contributes, and the error set holds what they contribute; `d` occurs once
among them and contributes exactly the token `d@locked`, exactly one `warn`
log showing the installed and the locked version, and nothing to the error
set, whatever the probes of `fs.statSync` would answer (no peer is audited);
the token occurs exactly once in the install list as soon as no other
dependency renders to the same string. -/
theorem mismatched_dependency_is_queued (h : Host) (w : World) (packageJson : PackageJson)
    (L : List (String × LockEntry)) (d locked : String) (installed : Descriptor)
    (hall : ∀ x ∈ dependencies packageJson, L.lookup x ≠ none)
    (hd : d ∈ dependencies packageJson)
    (hv : L.lookup d = some ⟨locked⟩)
    (hfile : w.lstatSync (dependencyPath d) = some false)
    (hdesc : w.readJson (dependencyPackagePath d) = some installed)
    (hne : installed.version ≠ locked) :
    ∃ plan, classify h w packageJson ⟨some L⟩ = Step.next plan ∧
      plan.installPackages = (dependencies packageJson).flatMap
        (fun x => (contribution h w ⟨some L⟩ (dependencies packageJson) x).installPackages) ∧
      plan.logs = (dependencies packageJson).flatMap
        (fun x => (contribution h w ⟨some L⟩ (dependencies packageJson) x).logs) ∧
      (∀ x, x ∈ plan.errorPackages ↔ ∃ y ∈ dependencies packageJson,
        x ∈ (contribution h w ⟨some L⟩ (dependencies packageJson) y).errorPackages) ∧
      (dependencies packageJson).count d = 1 ∧
      (∀ statSync : String → Option FsError,
        contribution h { w with statSync := statSync } ⟨some L⟩ (dependencies packageJson) d =
          { installPackages := [d ++ "@" ++ locked]
            errorPackages := []
            logs := [⟨Func.warn, "Version mismatch for " ++ d ++ ", version " ++
              h.bold installed.version ++ " is installed but version " ++ h.bold locked ++
              " is needed"⟩] }) ∧
      d ++ "@" ++ locked ∈ plan.installPackages ∧
      ((∀ x ∈ dependencies packageJson, ∀ e, L.lookup x = some e →
          x ++ "@" ++ e.version = d ++ "@" ++ locked → x = d) →
        plan.installPackages.count (d ++ "@" ++ locked) = 1) := by
  obtain ⟨plan, hplan⟩ := classify_locked h w packageJson L hall
  obtain ⟨hi, hl, he, -⟩ := classify_next h w packageJson ⟨some L⟩ plan hplan
  have hc : ∀ statSync : String → Option FsError,
      contribution h { w with statSync := statSync } ⟨some L⟩ (dependencies packageJson) d =
        { installPackages := [d ++ "@" ++ locked]
          errorPackages := []
          logs := [⟨Func.warn, "Version mismatch for " ++ d ++ ", version " ++
            h.bold installed.version ++ " is installed but version " ++ h.bold locked ++
            " is needed"⟩] } := fun statSync =>
    contribution_mismatch h { w with statSync := statSync } L _ d ⟨locked⟩ none installed hv
      (inspect_installed h { w with statSync := statSync } d installed hfile hdesc) hne
  have hcw := hc w.statSync
  refine ⟨plan, hplan, hi, hl, he, List.count_eq_one_of_mem (nodup_dependencies packageJson) hd,
    hc, ?_, ?_⟩
  · rw [hi, List.mem_flatMap]
    exact ⟨d, hd, by rw [hcw]; exact List.mem_singleton_self _⟩
  · intro huniq
    rw [hi]
    apply count_flatMap_of_unique _ _ d _ (nodup_dependencies packageJson) hd
    · rw [hcw]; simp
    · intro x hx hxd hmem
      rcases contribution_installPackages h w L (dependencies packageJson) x with
        h0 | ⟨e, he, h1⟩ | ⟨hnone, -, -⟩
      · rw [h0] at hmem; cases hmem
      · rw [h1, List.mem_singleton] at hmem
        exact hxd (huniq x hx e he hmem.symm)
      · exact absurd hnone (hall x hx)

/-- C4 at a concrete input: `a` is locked at 1.2.0 and installed at 1.1.0, so the
install list holds `a@1.2.0` (not `a@1.1.0`) once and `a` contributes one `warn`
log naming both versions. -/
theorem mismatched_dependency_is_queued_witness :
    (∀ x ∈ dependencies manifestA, List.lookup x [("a", (⟨"1.2.0"⟩ : LockEntry))] ≠ none) ∧
    "a" ∈ dependencies manifestA ∧
    outdatedDirectory.lstatSync (dependencyPath "a") = some false ∧
    ∃ plan, classify nodeHost outdatedDirectory manifestA lockA = Step.next plan ∧
      plan.installPackages.count "a@1.2.0" = 1 ∧
      contribution nodeHost outdatedDirectory lockA (dependencies manifestA) "a" =
        { installPackages := ["a@1.2.0"]
          errorPackages := []
          logs := [⟨Func.warn,
            "Version mismatch for a, version 1.1.0 is installed but version 1.2.0 is needed"⟩] } := by
  refine ⟨by decide, by decide, by decide, ?_⟩
  obtain ⟨plan, hp, -, -, -, -, hc, -, hcount⟩ :=
    mismatched_dependency_is_queued nodeHost outdatedDirectory manifestA [("a", ⟨"1.2.0"⟩)] "a"
      "1.2.0" ⟨"1.1.0", none, none⟩ (by decide) (by decide) (by decide) (by decide) (by decide)
      (by decide)
  exact ⟨plan, hp, hcount (by decide), hc outdatedDirectory.statSync⟩

/-! ## Convergence (C5) -/

theorem probed_iff (deps : List String) (installed : Descriptor) (p : String) :
    probed deps installed p = true ↔ isOptional installed p = false ∧ p ∉ deps := by
  simp [probed]

theorem failures_eq_nil (w : World) (deps : List String) (installed : Descriptor)
    (hok : ∀ peers, installed.peerDependencies = some peers → ∀ p ∈ peers,
      isOptional installed p = false → p ∉ deps →
      w.statSync (peerDependencyPackagePath p) = none) :
    failures w deps installed = [] := by
  unfold failures
  cases hpeers : installed.peerDependencies with
  | none => rfl
  | some peers =>
    simp only
    rw [List.filterMap_eq_nil_iff]
    intro p hp
    unfold failure
    cases hc : probed deps installed p with
    | false => rfl
    | true =>
      have hc' := (probed_iff deps installed p).mp hc
      simp [hok peers hpeers p hp hc'.1 hc'.2]

/-- C5. When every manifest dependency has a lock entry, is installed (a real
directory entry with a readable descriptor) at exactly its locked version, and
every peer it declares that is neither optional nor a manifest dependency is
found by the probe, the pass converges: the loop completes with an empty
install list, an empty error set (and no buffered log); the promise resolves;
the run shows no prompt, starts no installer and does not end the process; and
it writes "All packages up-to-date" exactly when it is a recheck pass. -/
theorem converged_pass_resolves (h : Host) (prompt : Option Bool) (exec : String → Installation)
    (autofixEnabled : Bool) (w : World) (packageJson : PackageJson)
    (L : List (String × LockEntry))
    (hp : w.packageJson = some packageJson)
    (hl : w.packageLockJson = some ⟨some L⟩)
    (hok : ∀ d ∈ dependencies packageJson, ∃ needed installed,
      L.lookup d = some needed ∧
      w.lstatSync (dependencyPath d) = some false ∧
      w.readJson (dependencyPackagePath d) = some installed ∧
      installed.version = needed.version ∧
      ∀ peers, installed.peerDependencies = some peers → ∀ p ∈ peers,
        isOptional installed p = false → p ∉ dependencies packageJson →
        w.statSync (peerDependencyPackagePath p) = none) :
    classify h w packageJson ⟨some L⟩ =
      Step.next { installPackages := [], errorPackages := [], logs := [] } ∧
    checkPackages h prompt exec autofixEnabled w =
      ⟨if autofixEnabled then [Event.console Func.info "Checking for outdated packages"]
        else [Event.console Func.info "All packages up-to-date"], Outcome.resolved⟩ ∧
    (∀ message, Event.prompt message ∉ (checkPackages h prompt exec autofixEnabled w).events) ∧
    (∀ command, Event.exec command ∉ (checkPackages h prompt exec autofixEnabled w).events) ∧
    (Event.console Func.info "All packages up-to-date" ∈
      (checkPackages h prompt exec autofixEnabled w).events ↔ autofixEnabled = false) := by
  have hall : ∀ x ∈ dependencies packageJson, L.lookup x ≠ none := by
    intro x hx
    obtain ⟨needed, _, hn, _⟩ := hok x hx
    rw [hn]
    exact Option.some_ne_none _
  have hcontrib : ∀ d ∈ dependencies packageJson,
      contribution h w ⟨some L⟩ (dependencies packageJson) d = ⟨[], [], []⟩ := by
    intro d hd
    obtain ⟨needed, installed, hn, hfile, hdesc, hver, hpeers⟩ := hok d hd
    rw [contribution_match h w L _ d needed none installed hn
      (inspect_installed h w d installed hfile hdesc) hver,
      failures_eq_nil w _ installed hpeers]
    rfl
  obtain ⟨plan, hplan⟩ := classify_locked h w packageJson L hall
  obtain ⟨hi, hlogs, he, -⟩ := classify_next h w packageJson ⟨some L⟩ plan hplan
  have hplan_eq : plan = ⟨[], [], []⟩ := by
    obtain ⟨installs, errors, logs⟩ := plan
    simp only at hi hlogs he
    have h1 : installs = [] := by
      rw [hi, List.flatMap_eq_nil_iff]
      intro d hd
      rw [hcontrib d hd]
    have h2 : logs = [] := by
      rw [hlogs, List.flatMap_eq_nil_iff]
      intro d hd
      rw [hcontrib d hd]
    have h3 : errors = [] := by
      rw [List.eq_nil_iff_forall_not_mem]
      intro x hx
      obtain ⟨d, hd, hxd⟩ := (he x).mp hx
      rw [hcontrib d hd] at hxd
      cases hxd
    rw [h1, h2, h3]
  rw [hplan_eq] at hplan
  have hrun : checkPackages h prompt exec autofixEnabled w =
      ⟨if autofixEnabled then [Event.console Func.info "Checking for outdated packages"]
        else [Event.console Func.info "All packages up-to-date"], Outcome.resolved⟩ := by
    rw [checkPackages]
    simp only [hp, hl, hplan]
    cases autofixEnabled <;> rfl
  refine ⟨hplan, hrun, ?_, ?_, ?_⟩
  · intro message
    rw [hrun]
    cases autofixEnabled <;> simp
  · intro command
    rw [hrun]
    cases autofixEnabled <;> simp
  · rw [hrun]
    cases autofixEnabled <;> simp

/-- C5 at a concrete input: `a` installed at its locked version, its required
peer `b` installed, its peer `c` optional; the recheck pass resolves after
writing "All packages up-to-date" and nothing else. -/
theorem converged_pass_resolves_witness :
    convergedDirectory.packageJson = some manifestA ∧
    convergedDirectory.packageLockJson = some lockA ∧
    checkPackages nodeHost none (fun _ => ⟨[], some 0, convergedDirectory⟩) false
        convergedDirectory =
      ⟨[Event.console Func.info "All packages up-to-date"], Outcome.resolved⟩ ∧
    checkPackages nodeHost none (fun _ => ⟨[], some 0, convergedDirectory⟩) true
        convergedDirectory =
      ⟨[Event.console Func.info "Checking for outdated packages"], Outcome.resolved⟩ := by
  have hok : ∀ d ∈ dependencies manifestA, ∃ needed installed,
      List.lookup d [("a", (⟨"1.2.0"⟩ : LockEntry))] = some needed ∧
      convergedDirectory.lstatSync (dependencyPath d) = some false ∧
      convergedDirectory.readJson (dependencyPackagePath d) = some installed ∧
      installed.version = needed.version ∧
      ∀ peers, installed.peerDependencies = some peers → ∀ p ∈ peers,
        isOptional installed p = false → p ∉ dependencies manifestA →
        convergedDirectory.statSync (peerDependencyPackagePath p) = none := by
    intro d hd
    have hda : d = "a" := by
      have hdeps : dependencies manifestA = ["a"] := by decide
      rw [hdeps] at hd
      exact List.mem_singleton.mp hd
    subst hda
    refine ⟨⟨"1.2.0"⟩, ⟨"1.2.0", some ["b", "c"], some [("c", ⟨some true⟩)]⟩, by decide,
      by decide, by decide, rfl, ?_⟩
    intro peers hpeers p hmem hopt _
    injection hpeers with hpeers
    subst hpeers
    rcases List.mem_cons.mp hmem with rfl | hmem
    · decide
    · rw [List.mem_singleton] at hmem
      subst hmem
      exact absurd hopt (by decide)
  exact ⟨rfl, rfl,
    (converged_pass_resolves nodeHost none (fun _ => ⟨[], some 0, convergedDirectory⟩) false
      convergedDirectory manifestA _ rfl rfl hok).2.1,
    (converged_pass_resolves nodeHost none (fun _ => ⟨[], some 0, convergedDirectory⟩) true
      convergedDirectory manifestA _ rfl rfl hok).2.1⟩

/-! ## Errors take precedence (C6) -/

/-- C6. Whatever the flag of the pass and whatever its install list holds, a pass
whose loop completes with a non-empty error set writes its buffered logs, then
the line "Found N packages with errors:" where N is the number of distinct
names in the error set, then each name of the error set (the set holds no name
twice), and ends the process with status 0; the run holds console output only:
no prompt is shown and no installer is started. -/
theorem errors_halt_the_pass (h : Host) (prompt : Option Bool) (exec : String → Installation)
    (autofixEnabled : Bool) (w : World) (packageJson : PackageJson) (lock : PackageLock)
    (plan : Plan)
    (hp : w.packageJson = some packageJson)
    (hl : w.packageLockJson = some lock)
    (hrun : classify h w packageJson lock = Step.next plan)
    (hne : plan.errorPackages ≠ []) :
    checkPackages h prompt exec autofixEnabled w =
      ⟨(if autofixEnabled then [Event.console Func.info "Checking for outdated packages"] else [])
          ++ plan.logs.map (fun l => Event.console l.func l.msg)
          ++ Event.console Func.error
              ("Found " ++ toString plan.errorPackages.toFinset.card ++ " packages with errors:")
            :: plan.errorPackages.map (fun name => Event.console Func.error name),
        Outcome.exited 0⟩ ∧
    plan.errorPackages.Nodup ∧
    (∀ message, Event.prompt message ∉ (checkPackages h prompt exec autofixEnabled w).events) ∧
    (∀ command, Event.exec command ∉ (checkPackages h prompt exec autofixEnabled w).events) := by
  obtain ⟨-, -, -, hnodup⟩ := classify_next h w packageJson lock plan hrun
  have hlen : 0 < plan.errorPackages.length := List.length_pos.mpr hne
  have hcard : plan.errorPackages.toFinset.card = plan.errorPackages.length :=
    List.toFinset_card_of_nodup hnodup
  have hev : checkPackages h prompt exec autofixEnabled w =
      ⟨(if autofixEnabled then [Event.console Func.info "Checking for outdated packages"] else [])
          ++ plan.logs.map (fun l => Event.console l.func l.msg)
          ++ Event.console Func.error
              ("Found " ++ toString plan.errorPackages.toFinset.card ++ " packages with errors:")
            :: plan.errorPackages.map (fun name => Event.console Func.error name),
        Outcome.exited 0⟩ := by
    rw [checkPackages]
    simp only [hp, hl, hrun, gt_iff_lt, hlen, if_true, flush, reportErrors, hcard]
  refine ⟨hev, hnodup, ?_, ?_⟩
  · intro message
    rw [hev]
    cases autofixEnabled <;> simp
  · intro command
    rw [hev]
    cases autofixEnabled <;> simp

/-- C6 at a concrete input: the peer `b` of `a` is missing and `c` is not
installed, so the install list `[c@2.0.0]` is not empty; the pass reports the
one error name and ends the process with status 0 without prompting. -/
theorem errors_halt_the_pass_witness :
    classify nodeHost precedenceDirectory manifestCA lockAC =
      Step.next precedencePlan ∧
    checkPackages nodeHost (some true) (fun _ => ⟨[], some 0, precedenceDirectory⟩) true
        precedenceDirectory =
      ⟨[Event.console Func.info "Checking for outdated packages",
          Event.console Func.warn "a requires b but is not installed, you must do this yourself, because I can't determine the version you need",
          Event.console Func.warn "c is not installed, but found in lock file.",
          Event.console Func.error "Found 1 packages with errors:",
          Event.console Func.error "b"],
        Outcome.exited 0⟩ := by
  have hc : classify nodeHost precedenceDirectory manifestCA lockAC =
      Step.next precedencePlan := by
    decide
  exact ⟨hc,
    (errors_halt_the_pass nodeHost (some true) (fun _ => ⟨[], some 0, precedenceDirectory⟩) true
      precedenceDirectory _ _ _ rfl rfl hc (by decide)).1⟩

/-! ## The peer audit (C7) -/

theorem failure_eq_some (w : World) (deps : List String) (installed : Descriptor)
    (p : String) (pe : String × FsError) (hf : failure w deps installed p = some pe) :
    pe.1 = p ∧ probed deps installed p = true ∧
      w.statSync (peerDependencyPackagePath p) = some pe.2 := by
  unfold failure at hf
  cases hc : probed deps installed p with
  | false => simp [hc] at hf
  | true =>
    cases hs : w.statSync (peerDependencyPackagePath p) with
    | none => simp [hc, hs] at hf
    | some e =>
      simp only [hc, hs, if_true, Option.map_some', Option.some.injEq] at hf
      subst hf
      exact ⟨rfl, rfl, rfl⟩

theorem failure_of_probe (w : World) (deps : List String) (installed : Descriptor)
    (p : String) (err : FsError) (hc : probed deps installed p = true)
    (hs : w.statSync (peerDependencyPackagePath p) = some err) :
    failure w deps installed p = some (p, err) := by
  simp [failure, hc, hs]

theorem mem_failures (w : World) (deps : List String) (installed : Descriptor)
    (pe : String × FsError) (hmem : pe ∈ failures w deps installed) :
    w.statSync (peerDependencyPackagePath pe.1) = some pe.2 := by
  unfold failures at hmem
  cases hpeers : installed.peerDependencies with
  | none => simp [hpeers] at hmem
  | some peers =>
    simp only [hpeers, List.mem_filterMap] at hmem
    obtain ⟨p, -, hf⟩ := hmem
    obtain ⟨h1, -, h3⟩ := failure_eq_some w deps installed p pe hf
    rw [h1, h3]

theorem filterMap_failure_names (w : World) (deps : List String) (installed : Descriptor)
    (peers : List String) :
    (peers.filterMap (failure w deps installed)).map Prod.fst =
      peers.filter fun p => (failure w deps installed p).isSome := by
  induction peers with
  | nil => rfl
  | cons p ps ih =>
    cases hf : failure w deps installed p with
    | none => simp [List.filterMap_cons, hf, List.filter_cons, ih]
    | some pe =>
      have h1 := (failure_eq_some w deps installed p pe hf).1
      simp [List.filterMap_cons, hf, List.filter_cons, ih, h1]

theorem failures_names (w : World) (deps : List String) (installed : Descriptor)
    (peers : List String) (hpeers : installed.peerDependencies = some peers) :
    (failures w deps installed).map Prod.fst =
      peers.filter fun p => (failure w deps installed p).isSome := by
  unfold failures
  simp only [hpeers]
  exact filterMap_failure_names w deps installed peers

/-- A name only enters the error set through a probe of that name that throws. -/
theorem mem_contribution_errorPackages (h : Host) (w : World) (lock : PackageLock)
    (deps : List String) (d x : String)
    (hx : x ∈ (contribution h w lock deps d).errorPackages) :
    ∃ err, w.statSync (peerDependencyPackagePath x) = some err := by
  obtain ⟨L⟩ := lock
  cases L with
  | none => simp [contribution, visit, Plan.empty] at hx
  | some L =>
    cases hn : L.lookup d with
    | none =>
      by_cases hk : d ∈ objectPrototypeKeys
      · rw [(contribution_inherited h w L deps d hn hk).2] at hx; cases hx
      · rw [contribution_unlocked h w L deps d hn hk] at hx; cases hx
    | some needed =>
      rcases hi : inspect h w d with ⟨linked, installed⟩
      cases installed with
      | some installed =>
        by_cases hver : installed.version = needed.version
        · rw [contribution_match h w L deps d needed linked installed hn hi hver] at hx
          simp only [mem_foldl_setAdd, List.not_mem_nil, false_or, List.mem_map] at hx
          obtain ⟨pe, hpe, rfl⟩ := hx
          exact ⟨pe.2, mem_failures w deps installed pe hpe⟩
        · rw [contribution_mismatch h w L deps d needed linked installed hn hi hver] at hx
          cases hx
      | none =>
        by_cases hk : linked = none ∨ linked = some ""
        · rw [contribution_missing h w L deps d needed linked hn hi hk] at hx
          cases hx
        · cases linked with
          | none => exact absurd (Or.inl rfl) hk
          | some linked =>
            rw [contribution_linked h w L deps d needed linked hn hi
              (fun hc => hk (Or.inr (by rw [hc])))] at hx
            cases hx

/-- C7. Let `d` be a matched dependency (installed at its locked version) and `p`
a peer it declares that is not optional and not a manifest dependency.
If the probe of `./node_modules/p/package.json` throws `err`: the callback of
the pair adds `p` to the error set and appends exactly one log, the `warn`
naming `d` and `p` when `err.code` is `ENOENT` and the `error` with the text of
`err` otherwise; the logs `d` contributes are one per failing peer, `p` is
among the failing peers once when the peers are distinct keys, and in the plan
of the pass `p` is in the error set and the log is in the logs.
If the probe succeeds: the callback of the pair leaves the accumulators
unchanged, and `p` is not in the error set of the pass.
In the scenario (`a@1.2.0` installed and locked, requiring the missing,
undeclared peer `b`) the plan has no install, the error set `{b}` and the one
`warn` log naming `a` and `b`. -/
theorem peer_audit_reports_failed_probes :
    (∀ (h : Host) (w : World) (packageJson : PackageJson) (L : List (String × LockEntry))
      (d p : String) (needed : LockEntry) (installed : Descriptor) (peers : List String),
      d ∈ dependencies packageJson →
      L.lookup d = some needed →
      w.lstatSync (dependencyPath d) = some false →
      w.readJson (dependencyPackagePath d) = some installed →
      installed.version = needed.version →
      installed.peerDependencies = some peers →
      p ∈ peers →
      isOptional installed p = false →
      p ∉ dependencies packageJson →
      (∀ err, w.statSync (peerDependencyPackagePath p) = some err →
        (∀ acc, auditPeer w (dependencies packageJson) d installed acc p =
          { acc with
            errorPackages := setAdd acc.errorPackages p
            logs := acc.logs ++ [peerLog d p err] }) ∧
        (∀ s, p ∈ setAdd s p) ∧
        (err.code = "ENOENT" → peerLog d p err = ⟨Func.warn, d ++ " requires " ++ p ++
          " but is not installed, you must do this yourself, because I can't determine the version you need"⟩) ∧
        (err.code ≠ "ENOENT" → peerLog d p err = ⟨Func.error, err.text⟩) ∧
        (contribution h w ⟨some L⟩ (dependencies packageJson) d).logs =
          (failures w (dependencies packageJson) installed).map
            (fun pe => peerLog d pe.1 pe.2) ∧
        (peers.Nodup →
          ((failures w (dependencies packageJson) installed).map Prod.fst).count p = 1) ∧
        (∀ plan, classify h w packageJson ⟨some L⟩ = Step.next plan →
          p ∈ plan.errorPackages ∧ peerLog d p err ∈ plan.logs)) ∧
      (w.statSync (peerDependencyPackagePath p) = none →
        (∀ acc, auditPeer w (dependencies packageJson) d installed acc p = acc) ∧
        (∀ plan, classify h w packageJson ⟨some L⟩ = Step.next plan →
          p ∉ plan.errorPackages))) ∧
    (∀ h : Host, classify h peerDirectory manifestA lockA =
      Step.next
        { installPackages := []
          errorPackages := ["b"]
          logs := [⟨Func.warn, "a requires b but is not installed, you must do this yourself, because I can't determine the version you need"⟩] }) := by
  refine ⟨?_, fun h => by rfl⟩
  intro h w packageJson L d p needed installed peers hd hn hfile hdesc hver hpeers hp hopt hundecl
  have hprobed : probed (dependencies packageJson) installed p = true :=
    (probed_iff _ installed p).mpr ⟨hopt, hundecl⟩
  have hc := contribution_match h w L (dependencies packageJson) d needed none installed hn
    (inspect_installed h w d installed hfile hdesc) hver
  constructor
  · intro err herr
    have hfail := failure_of_probe w (dependencies packageJson) installed p err hprobed herr
    have hmemf : (p, err) ∈ failures w (dependencies packageJson) installed := by
      unfold failures
      simp only [hpeers, List.mem_filterMap]
      exact ⟨p, hp, hfail⟩
    refine ⟨?_, ?_, ?_, ?_, ?_, ?_, ?_⟩
    · intro acc
      simp [auditPeer, hprobed, herr]
    · intro s
      exact mem_setAdd.mpr (Or.inr rfl)
    · intro hcode
      simp [peerLog, hcode]
    · intro hcode
      simp [peerLog, hcode]
    · rw [hc]
    · intro hnodup
      rw [failures_names w _ installed peers hpeers, List.count_filter (by simp [hfail])]
      exact List.count_eq_one_of_mem hnodup hp
    · intro plan hplan
      obtain ⟨-, hl, he, -⟩ := classify_next h w packageJson ⟨some L⟩ plan hplan
      constructor
      · rw [he]
        refine ⟨d, hd, ?_⟩
        rw [hc]
        simp only [mem_foldl_setAdd, List.not_mem_nil, false_or, List.mem_map]
        exact ⟨(p, err), hmemf, rfl⟩
      · rw [hl, List.mem_flatMap]
        refine ⟨d, hd, ?_⟩
        rw [hc]
        simp only [List.mem_map]
        exact ⟨(p, err), hmemf, rfl⟩
  · intro hsucc
    constructor
    · intro acc
      simp [auditPeer, hprobed, hsucc]
    · intro plan hplan hmem
      obtain ⟨-, -, he, -⟩ := classify_next h w packageJson ⟨some L⟩ plan hplan
      obtain ⟨y, -, hy⟩ := (he p).mp hmem
      obtain ⟨err, herr⟩ := mem_contribution_errorPackages h w ⟨some L⟩ _ y p hy
      rw [hsucc] at herr
      cases herr

/-- C7 at the scenario: the probe of the required, undeclared peer `b` of `a`
fails with ENOENT, so `b` is in the error set of the pass and the `warn` log
naming `a` and `b` is in its logs. -/
theorem peer_audit_reports_failed_probes_witness :
    "a" ∈ dependencies manifestA ∧
    "b" ∉ dependencies manifestA ∧
    peerDirectory.statSync (peerDependencyPackagePath "b") =
      some (enoent "./node_modules/b/package.json") ∧
    ∀ plan, classify nodeHost peerDirectory manifestA lockA = Step.next plan →
      "b" ∈ plan.errorPackages ∧
      peerLog "a" "b" (enoent "./node_modules/b/package.json") ∈ plan.logs := by
  refine ⟨by decide, by decide, by decide, ?_⟩
  exact ((peer_audit_reports_failed_probes.1 nodeHost peerDirectory manifestA
    [("a", ⟨"1.2.0"⟩)] "a" "b" ⟨"1.2.0"⟩ ⟨"1.2.0", some ["b"], none⟩ ["b"]
    (by decide) (by decide) (by decide) (by decide) rfl rfl (by decide) (by decide)
    (by decide)).1 (enoent "./node_modules/b/package.json") (by decide)).2.2.2.2.2.2

/-! ## Peers are never queued (C8) -/

theorem visit_exit (h : Host) (w : World) (lock : PackageLock) (deps : List String)
    (acc acc' : Plan) (d : String) (code : Int)
    (hv : visit h w lock deps acc d = Step.exit code acc') :
    acc'.installPackages = acc.installPackages ∧ acc'.errorPackages = acc.errorPackages := by
  obtain ⟨L⟩ := lock
  cases L with
  | none => simp [visit] at hv
  | some L =>
    cases hn : L.lookup d with
    | none =>
      by_cases hk : d ∈ objectPrototypeKeys
      · rcases visit_inherited_shape h w L deps d hn hk with hthrow | ⟨installs, logs, -, hnext⟩
        · rw [hthrow] at hv; cases hv
        · rw [hnext] at hv; cases hv
      · rw [visit_unlocked h w L deps acc d hn hk] at hv
        injection hv with _ hacc
        subst hacc
        exact ⟨rfl, rfl⟩
    | some needed =>
      obtain ⟨acc'', hnext⟩ := visit_locked h w L deps acc d
        (by rw [hn]; exact Option.some_ne_none _)
      rw [hnext] at hv
      cases hv

theorem forEach_invariant (f : Plan → String → Step) (P : Plan → Prop) (ds : List String)
    (hstep : ∀ acc, P acc → ∀ d ∈ ds,
      (∀ acc', f acc d = Step.next acc' → P acc') ∧
      (∀ code acc', f acc d = Step.exit code acc' → P acc'))
    (acc : Plan) (hacc : P acc) :
    (∀ plan, forEach f ds acc = Step.next plan → P plan) ∧
    (∀ code plan, forEach f ds acc = Step.exit code plan → P plan) := by
  induction ds generalizing acc with
  | nil =>
    constructor
    · intro plan hrun
      simp only [forEach] at hrun
      injection hrun with hrun
      exact hrun ▸ hacc
    · intro code plan hrun
      simp only [forEach] at hrun
      cases hrun
  | cons d ds ih =>
    have hd := hstep acc hacc d (List.mem_cons_self d ds)
    have hstep' : ∀ acc, P acc → ∀ x ∈ ds,
        (∀ acc', f acc x = Step.next acc' → P acc') ∧
        (∀ code acc', f acc x = Step.exit code acc' → P acc') :=
      fun a ha x hx => hstep a ha x (List.mem_cons_of_mem d hx)
    cases hv : f acc d with
    | throw =>
      constructor
      · intro plan hrun
        simp only [forEach, hv] at hrun
        cases hrun
      · intro code plan hrun
        simp only [forEach, hv] at hrun
        cases hrun
    | exit c acc' =>
      constructor
      · intro plan hrun
        simp only [forEach, hv] at hrun
        cases hrun
      · intro code plan hrun
        simp only [forEach, hv] at hrun
        injection hrun with _ hrun
        exact hrun ▸ hd.2 c acc' hv
    | next acc' =>
      have := ih hstep' acc' (hd.1 acc' hv)
      constructor
      · intro plan hrun
        simp only [forEach, hv] at hrun
        exact this.1 plan hrun
      · intro code plan hrun
        simp only [forEach, hv] at hrun
        exact this.2 code plan hrun

theorem contribution_installPackages_statSync (h : Host) (w : World) (lock : PackageLock)
    (deps : List String) (d : String) (statSync : String → Option FsError) :
    (contribution h { w with statSync := statSync } lock deps d).installPackages =
      (contribution h w lock deps d).installPackages := by
  obtain ⟨L⟩ := lock
  cases L with
  | none => rfl
  | some L =>
    cases hn : L.lookup d with
    | none =>
      by_cases hk : d ∈ objectPrototypeKeys
      · rcases hi : inspect h w d with ⟨linked, installed⟩
        have hi' : inspect h { w with statSync := statSync } d = (linked, installed) := hi
        unfold contribution
        rw [visit_inherited h w L deps Plan.empty d linked installed hn hk hi,
          visit_inherited h _ L deps Plan.empty d linked installed hn hk hi']
      · rw [contribution_unlocked h w L deps d hn hk, contribution_unlocked h _ L deps d hn hk]
    | some needed =>
      rcases hi : inspect h w d with ⟨linked, installed⟩
      have hi' : inspect h { w with statSync := statSync } d = (linked, installed) := hi
      cases installed with
      | some installed =>
        by_cases hver : installed.version = needed.version
        · rw [contribution_match h w L deps d needed linked installed hn hi hver,
            contribution_match h _ L deps d needed linked installed hn hi' hver]
        · rw [contribution_mismatch h w L deps d needed linked installed hn hi hver,
            contribution_mismatch h _ L deps d needed linked installed hn hi' hver]
      | none =>
        by_cases hk : linked = none ∨ linked = some ""
        · rw [contribution_missing h w L deps d needed linked hn hi hk,
            contribution_missing h _ L deps d needed linked hn hi' hk]
        · cases linked with
          | none => exact absurd (Or.inl rfl) hk
          | some linked =>
            have hne : linked ≠ "" := fun hc => hk (Or.inr (by rw [hc]))
            rw [contribution_linked h w L deps d needed linked hn hi hne,
              contribution_linked h _ L deps d needed linked hn hi' hne]

/-- Every entry of the install list comes from a declared dependency: in every
pass, whether its loop completes or ends the process, every entry is the token
`d@v` of a declared manifest dependency `d`, with `v` the version of the lock
entry of `d` when the lock has one, and `undefined` when it has none and the
name of `d` is inherited from `Object.prototype`; so for a name `p` that is not
declared, every entry belongs to a dependency other than `p`. And the install
list of a completed loop does not depend on what the probes of peers answer:
failing probes of required peers add nothing to it. -/
theorem install_entries_come_from_declared_dependencies (h : Host) (w : World)
    (packageJson : PackageJson) (lock : PackageLock) :
    (∀ acc, (classify h w packageJson lock = Step.next acc ∨
        ∃ code, classify h w packageJson lock = Step.exit code acc) →
      ∀ t ∈ acc.installPackages, ∃ d ∈ dependencies packageJson, ∃ L,
        lock.dependencies = some L ∧
        ((∃ e, L.lookup d = some e ∧ t = d ++ "@" ++ e.version) ∨
          (L.lookup d = none ∧ d ∈ objectPrototypeKeys ∧ t = d ++ "@" ++ "undefined")) ∧
        ∀ p, p ∉ dependencies packageJson → d ≠ p) ∧
    (∀ (statSync : String → Option FsError) (plan plan' : Plan),
      classify h w packageJson lock = Step.next plan →
      classify h { w with statSync := statSync } packageJson lock = Step.next plan' →
      plan'.installPackages = plan.installPackages) := by
  constructor
  · have hinv := forEach_invariant (visit h w lock (dependencies packageJson))
      (fun acc => ∀ t ∈ acc.installPackages, ∃ d ∈ dependencies packageJson, ∃ L,
        lock.dependencies = some L ∧
        ((∃ e, L.lookup d = some e ∧ t = d ++ "@" ++ e.version) ∨
          (L.lookup d = none ∧ d ∈ objectPrototypeKeys ∧ t = d ++ "@" ++ "undefined")) ∧
        ∀ p, p ∉ dependencies packageJson → d ≠ p)
      (dependencies packageJson)
      (by
        intro acc hacc d hd
        constructor
        · intro acc' hv t ht
          obtain ⟨-, hi, -, -, -⟩ := visit_frame h w lock _ acc d acc' hv
          rw [hi, List.mem_append] at ht
          rcases ht with ht | ht
          · exact hacc t ht
          · obtain ⟨L⟩ := lock
            cases L with
            | none => simp [visit] at hv
            | some L =>
              rcases contribution_installPackages h w L (dependencies packageJson) d with
                h0 | ⟨e, he, h1⟩ | ⟨hnone, hk, h1⟩
              · rw [h0] at ht; cases ht
              · rw [h1, List.mem_singleton] at ht
                exact ⟨d, hd, L, rfl, Or.inl ⟨e, he, ht⟩, fun p hp hdp => hp (hdp ▸ hd)⟩
              · rw [h1, List.mem_singleton] at ht
                exact ⟨d, hd, L, rfl, Or.inr ⟨hnone, hk, ht⟩, fun p hp hdp => hp (hdp ▸ hd)⟩
        · intro code acc' hv t ht
          rw [(visit_exit h w lock _ acc acc' d code hv).1] at ht
          exact hacc t ht)
      Plan.empty (by intro t ht; cases ht)
    rintro acc (hacc | ⟨code, hacc⟩)
    · exact hinv.1 acc hacc
    · exact hinv.2 code acc hacc
  · intro statSync plan plan' hplan hplan'
    obtain ⟨hi, -, -, -⟩ := classify_next h w packageJson lock plan hplan
    obtain ⟨hi', -, -, -⟩ := classify_next h _ packageJson lock plan' hplan'
    rw [hi, hi']
    congr 1
    funext d
    exact contribution_installPackages_statSync h w lock _ d statSync

/-- When every manifest dependency has a lock entry of its own, every entry of
the install list of a completed loop is `d@v` with `d` declared and `v` the
version of the lock entry of `d`. -/
theorem install_entries_are_locked_versions (h : Host) (w : World)
    (packageJson : PackageJson) (L : List (String × LockEntry)) (plan : Plan)
    (hall : ∀ x ∈ dependencies packageJson, L.lookup x ≠ none)
    (hplan : classify h w packageJson ⟨some L⟩ = Step.next plan) :
    ∀ t ∈ plan.installPackages, ∃ d ∈ dependencies packageJson, ∃ e,
      L.lookup d = some e ∧ t = d ++ "@" ++ e.version := by
  intro t ht
  obtain ⟨d, hd, L', hL, hform, -⟩ :=
    (install_entries_come_from_declared_dependencies h w packageJson ⟨some L⟩).1 plan
      (Or.inl hplan) t ht
  injection hL with hL
  subst hL
  rcases hform with ⟨e, he, hte⟩ | ⟨hnone, -, -⟩
  · exact ⟨d, hd, e, he, hte⟩
  · exact absurd hnone (hall d hd)

/-! ## Skipped peers (C9) -/

/-- C9. A peer `p` of `d` that is marked optional, or that is itself a manifest
dependency, is skipped: whatever the file system answers (no probe is
consulted, `p` installed or not), the callback of the pair leaves the error set
and the logs as they are, and `p` is never among the failing peers of the
descriptor. `isOptional` is true only for a peer whose `peerDependenciesMeta`
entry has the field `optional` set to true: without `peerDependenciesMeta`,
without an entry for `p`, or without the field `optional`, the peer is treated
as required, that is, it is probed unless it is a manifest dependency. -/
theorem optional_or_declared_peer_is_skipped (deps : List String) (installed : Descriptor)
    (p : String) :
    (isOptional installed p = true ∨ p ∈ deps →
      (∀ (w : World) (d : String) (acc : Plan), auditPeer w deps d installed acc p = acc) ∧
      (∀ (w : World), ∀ pe ∈ failures w deps installed, pe.1 ≠ p)) ∧
    (isOptional installed p = true ↔
      ∃ peerDependenciesMeta m, installed.peerDependenciesMeta = some peerDependenciesMeta ∧
        peerDependenciesMeta.lookup p = some m ∧ m.optional = some true) ∧
    (installed.peerDependenciesMeta = none → isOptional installed p = false) ∧
    (∀ peerDependenciesMeta, installed.peerDependenciesMeta = some peerDependenciesMeta →
      peerDependenciesMeta.lookup p = none → isOptional installed p = false) ∧
    (∀ peerDependenciesMeta m, installed.peerDependenciesMeta = some peerDependenciesMeta →
      peerDependenciesMeta.lookup p = some m → m.optional = none →
      isOptional installed p = false) ∧
    (isOptional installed p = false → p ∉ deps → probed deps installed p = true) := by
  refine ⟨?_, ?_, ?_, ?_, ?_, ?_⟩
  · intro hskip
    have hprobed : probed deps installed p = false := by
      cases hc : probed deps installed p with
      | false => rfl
      | true =>
        obtain ⟨h1, h2⟩ := (probed_iff deps installed p).mp hc
        rcases hskip with hopt | hdecl
        · rw [h1] at hopt; cases hopt
        · exact absurd hdecl h2
    constructor
    · intro w d acc
      simp [auditPeer, hprobed]
    · intro w pe hpe hname
      unfold failures at hpe
      cases hpeers : installed.peerDependencies with
      | none => simp [hpeers] at hpe
      | some peers =>
        simp only [hpeers, List.mem_filterMap] at hpe
        obtain ⟨q, -, hf⟩ := hpe
        obtain ⟨h1, h2, -⟩ := failure_eq_some w deps installed q pe hf
        rw [← h1, hname, hprobed] at h2
        cases h2
  · unfold isOptional
    cases hmeta : installed.peerDependenciesMeta with
    | none => simp
    | some peerDependenciesMeta =>
      cases hlook : peerDependenciesMeta.lookup p with
      | none => simp [hlook]
      | some m =>
        cases hopt : m.optional with
        | none => simp [hlook, hopt]
        | some b => simp [hlook, hopt]
  · intro hmeta
    simp [isOptional, hmeta]
  · intro peerDependenciesMeta hmeta hlook
    simp [isOptional, hmeta, hlook]
  · intro peerDependenciesMeta m hmeta hlook hopt
    simp [isOptional, hmeta, hlook, hopt]
  · intro hopt hdecl
    exact (probed_iff deps installed p).mpr ⟨hopt, hdecl⟩

/-- C9 at a concrete input: the peer `c` of `a` is marked optional and is not
installed (its probe would throw ENOENT); auditing the pair changes nothing. -/
theorem optional_or_declared_peer_is_skipped_witness :
    isOptional ⟨"1.2.0", some ["b", "c"], some [("c", ⟨some true⟩)]⟩ "c" = true ∧
    convergedDirectory.statSync (peerDependencyPackagePath "c") =
      some (enoent "./node_modules/c/package.json") ∧
    ∀ acc, auditPeer convergedDirectory ["a"] "a"
      ⟨"1.2.0", some ["b", "c"], some [("c", ⟨some true⟩)]⟩ acc "c" = acc := by
  refine ⟨by decide, by decide, ?_⟩
  intro acc
  exact ((optional_or_declared_peer_is_skipped ["a"]
    ⟨"1.2.0", some ["b", "c"], some [("c", ⟨some true⟩)]⟩ "c").1
    (Or.inl (by decide))).1 convergedDirectory "a" acc

/-! ## Ordering (C10) -/

theorem flatMap_forall₂_sublist {α β : Type} (R : β → α → Prop) (f : α → List β) (l : List α)
    (hf : ∀ d ∈ l, f d = [] ∨ ∃ t, R t d ∧ f d = [t]) :
    ∃ ds, ds.Sublist l ∧ List.Forall₂ R (l.flatMap f) ds := by
  induction l with
  | nil => exact ⟨[], List.Sublist.slnil, List.Forall₂.nil⟩
  | cons a as ih =>
    obtain ⟨ds, hsub, hall⟩ := ih fun d hd => hf d (List.mem_cons_of_mem a hd)
    rcases hf a (List.mem_cons_self a as) with h0 | ⟨t, hR, h1⟩
    · exact ⟨ds, hsub.cons a, by rw [List.flatMap_cons, h0]; exact hall⟩
    · exact ⟨a :: ds, hsub.cons₂ a, by
        rw [List.flatMap_cons, h1]
        exact List.Forall₂.cons hR hall⟩

theorem dependencies_eq_of_same_names (packageJson packageJson' : PackageJson)
    (hsame : ∀ x,
      (x ∈ packageJson'.dependencies.map Prod.fst ∨ x ∈ packageJson'.devDependencies.map Prod.fst) ↔
      (x ∈ packageJson.dependencies.map Prod.fst ∨ x ∈ packageJson.devDependencies.map Prod.fst)) :
    dependencies packageJson' = dependencies packageJson := by
  haveI := jsLe_antisymm
  apply List.eq_of_perm_of_sorted _ (sorted_dependencies packageJson')
    (sorted_dependencies packageJson)
  rw [List.perm_ext_iff_of_nodup (nodup_dependencies packageJson')
    (nodup_dependencies packageJson)]
  intro x
  rw [mem_dependencies, mem_dependencies]
  exact hsame x

/-- The install list of a completed loop is, entry by entry, the list of tokens
`d@v` of a sublist of the sorted dependencies, `v` being the version of the lock
entry of `d`, or `undefined` when the lock has no entry for `d` and the name of
`d` is inherited from `Object.prototype`. -/
theorem installPackages_tokens (h : Host) (w : World) (packageJson : PackageJson)
    (lock : PackageLock) (plan : Plan)
    (hplan : classify h w packageJson lock = Step.next plan) :
    ∃ ds, ds.Sublist (dependencies packageJson) ∧
      List.Forall₂
        (fun t d => ∃ L, lock.dependencies = some L ∧
          ((∃ e, L.lookup d = some e ∧ t = d ++ "@" ++ e.version) ∨
            (L.lookup d = none ∧ d ∈ objectPrototypeKeys ∧ t = d ++ "@" ++ "undefined")))
        plan.installPackages ds := by
  obtain ⟨hi, -, -, -⟩ := classify_next h w packageJson lock plan hplan
  obtain ⟨ds, hsub, hall⟩ := flatMap_forall₂_sublist
    (fun t d => ∃ L, lock.dependencies = some L ∧
      ((∃ e, L.lookup d = some e ∧ t = d ++ "@" ++ e.version) ∨
        (L.lookup d = none ∧ d ∈ objectPrototypeKeys ∧ t = d ++ "@" ++ "undefined")))
    (fun d => (contribution h w lock (dependencies packageJson) d).installPackages)
    (dependencies packageJson)
    (by
      intro d _
      obtain ⟨L⟩ := lock
      cases L with
      | none => left; rfl
      | some L =>
        rcases contribution_installPackages h w L (dependencies packageJson) d with
          h0 | ⟨e, he, h1⟩ | ⟨hnone, hk, h1⟩
        · exact Or.inl h0
        · exact Or.inr ⟨_, ⟨L, rfl, Or.inl ⟨e, he, rfl⟩⟩, h1⟩
        · exact Or.inr ⟨_, ⟨L, rfl, Or.inr ⟨hnone, hk, rfl⟩⟩, h1⟩)
  rw [← hi] at hall
  exact ⟨ds, hsub, hall⟩

/-- C10. The array `dependencies` a pass iterates over holds exactly the names
declared in `dependencies` or `devDependencies`, each once, in strictly
increasing order of their UTF-16 code units; it is the same array, and the loop
gives the same result, for any manifest declaring the same names, in
particular for the same entries written in another order. The install list of
a completed loop follows that order: it is, entry by entry, the list of tokens
`d@v` of a sublist of `dependencies`, whose names are therefore strictly
increasing and without duplicate (`v` is the version of the lock entry of `d`,
or `undefined` when the lock has no entry for `d` and the name of `d` is
inherited from `Object.prototype`). -/
theorem install_list_follows_sorted_dependencies (packageJson : PackageJson) :
    (∀ x, x ∈ dependencies packageJson ↔
      x ∈ packageJson.dependencies.map Prod.fst ∨
        x ∈ packageJson.devDependencies.map Prod.fst) ∧
    (dependencies packageJson).Nodup ∧
    (dependencies packageJson).Pairwise jsLt ∧
    (∀ packageJson' : PackageJson,
      ((∀ x,
        (x ∈ packageJson'.dependencies.map Prod.fst ∨
          x ∈ packageJson'.devDependencies.map Prod.fst) ↔
        (x ∈ packageJson.dependencies.map Prod.fst ∨
          x ∈ packageJson.devDependencies.map Prod.fst)) ∨
        (packageJson'.dependencies.Perm packageJson.dependencies ∧
          packageJson'.devDependencies.Perm packageJson.devDependencies)) →
      dependencies packageJson' = dependencies packageJson ∧
      ∀ (h : Host) (w : World) (lock : PackageLock),
        classify h w packageJson' lock = classify h w packageJson lock) ∧
    (∀ (h : Host) (w : World) (lock : PackageLock) (plan : Plan),
      classify h w packageJson lock = Step.next plan →
      ∃ ds, ds.Sublist (dependencies packageJson) ∧ ds.Pairwise jsLt ∧ ds.Nodup ∧
        List.Forall₂
          (fun t d => ∃ L, lock.dependencies = some L ∧
            ((∃ e, L.lookup d = some e ∧ t = d ++ "@" ++ e.version) ∨
              (L.lookup d = none ∧ d ∈ objectPrototypeKeys ∧ t = d ++ "@" ++ "undefined")))
          plan.installPackages ds) := by
  refine ⟨mem_dependencies packageJson, nodup_dependencies packageJson,
    pairwise_jsLt_dependencies packageJson, ?_, ?_⟩
  · intro packageJson' hsame
    have heq : dependencies packageJson' = dependencies packageJson := by
      apply dependencies_eq_of_same_names
      rcases hsame with hsame | ⟨hd, hdev⟩
      · exact hsame
      · intro x
        rw [(hd.map Prod.fst).mem_iff, (hdev.map Prod.fst).mem_iff]
    refine ⟨heq, fun h w lock => ?_⟩
    unfold classify
    rw [heq]
  · intro h w lock plan hplan
    obtain ⟨ds, hsub, hall⟩ := installPackages_tokens h w packageJson lock plan hplan
    exact ⟨ds, hsub, (pairwise_jsLt_dependencies packageJson).sublist hsub,
      (nodup_dependencies packageJson).sublist hsub, hall⟩

/-- C10 at concrete inputs: the manifest `{c, a}` is iterated as `[a, c]`, as is
the manifest `{a, c}`, and the install list of the pass is the token of `c`; for
the manifest `{constructor}` and a lock without entry the install list is the
token `constructor@undefined` of the one dependency. -/
theorem install_list_follows_sorted_dependencies_witness :
    dependencies manifestCA = ["a", "c"] ∧
    dependencies { dependencies := [("a", "^1.0.0"), ("c", "^2.0.0")], devDependencies := [] } =
      dependencies manifestCA ∧
    (∃ ds, ds.Sublist (dependencies manifestCA) ∧ ds.Pairwise jsLt ∧ ds.Nodup ∧
      List.Forall₂
        (fun t d => ∃ L, lockAC.dependencies = some L ∧
          ((∃ e, L.lookup d = some e ∧ t = d ++ "@" ++ e.version) ∨
            (L.lookup d = none ∧ d ∈ objectPrototypeKeys ∧ t = d ++ "@" ++ "undefined")))
        ["c@2.0.0"] ds) ∧
    (∃ ds, ds.Sublist (dependencies manifestConstructor) ∧ ds.Pairwise jsLt ∧ ds.Nodup ∧
      List.Forall₂
        (fun t d => ∃ L, (⟨some []⟩ : PackageLock).dependencies = some L ∧
          ((∃ e, L.lookup d = some e ∧ t = d ++ "@" ++ e.version) ∨
            (L.lookup d = none ∧ d ∈ objectPrototypeKeys ∧ t = d ++ "@" ++ "undefined")))
        ["constructor@undefined"] ds) := by
  refine ⟨by decide, ?_, ?_, ?_⟩
  · exact ((install_list_follows_sorted_dependencies manifestCA).2.2.2.1
      { dependencies := [("a", "^1.0.0"), ("c", "^2.0.0")], devDependencies := [] }
      (Or.inr ⟨List.Perm.swap _ _ _, List.Perm.refl _⟩)).1
  · exact (install_list_follows_sorted_dependencies manifestCA).2.2.2.2 nodeHost
      precedenceDirectory lockAC precedencePlan (by decide)
  · exact (install_list_follows_sorted_dependencies manifestConstructor).2.2.2.2 nodeHost
      constructorDirectory ⟨some []⟩
      ⟨["constructor@undefined"], [],
        [⟨Func.warn, "constructor is not installed, but found in lock file."⟩]⟩ (by decide)

/-! ## The two passes of a call -/

theorem checkPackages_eq (h : Host) (prompt : Option Bool) (exec : String → Installation)
    (autofixEnabled : Bool) (w : World) :
    checkPackages h prompt exec autofixEnabled w =
      checkPackagesWith (checkPackages h prompt exec false) h prompt exec autofixEnabled w := by
  rw [checkPackages]
  unfold checkPackagesWith
  cases autofixEnabled <;> rfl

/-- A pass whose loop completes with an empty error set and a non-empty install
list, seen from the branch of line 133 on. -/
theorem checkPackagesWith_installs (recheck : World → Run) (h : Host) (prompt : Option Bool)
    (exec : String → Installation) (autofixEnabled : Bool) (w : World)
    (packageJson : PackageJson) (lock : PackageLock) (plan : Plan)
    (hp : w.packageJson = some packageJson) (hl : w.packageLockJson = some lock)
    (hrun : classify h w packageJson lock = Step.next plan)
    (he : plan.errorPackages = []) (hi : plan.installPackages ≠ []) :
    checkPackagesWith recheck h prompt exec autofixEnabled w =
      if autofixEnabled = true then
        match prompt with
        | none =>
          ⟨Event.console Func.info "Checking for outdated packages" :: flush plan.logs ++
            [Event.prompt "Want to auto-install packages?"], Outcome.pending⟩
        | some false =>
          ⟨Event.console Func.info "Checking for outdated packages" :: flush plan.logs ++
            [Event.prompt "Want to auto-install packages?"], Outcome.resolved⟩
        | some true =>
          if (exec (command plan.installPackages)).exit.isSome then
            if h.consoleEvent then
              ⟨Event.console Func.info "Checking for outdated packages" :: flush plan.logs ++
                [Event.prompt "Want to auto-install packages?"] ++
                [Event.console Func.info
                    ("Running npm install for " ++ " ".intercalate plan.installPackages),
                  Event.exec (command plan.installPackages)] ++
                (exec (command plan.installPackages)).stderr.map
                  (fun data => Event.console Func.error data) ++
                [Event.consoleEvent "Installed missing packages",
                  Event.console Func.info "Re-checking for outdated packages"] ++
                (recheck (exec (command plan.installPackages)).world).events,
                (recheck (exec (command plan.installPackages)).world).outcome⟩
            else
              ⟨Event.console Func.info "Checking for outdated packages" :: flush plan.logs ++
                [Event.prompt "Want to auto-install packages?"] ++
                [Event.console Func.info
                    ("Running npm install for " ++ " ".intercalate plan.installPackages),
                  Event.exec (command plan.installPackages)] ++
                (exec (command plan.installPackages)).stderr.map
                  (fun data => Event.console Func.error data), Outcome.unhandled⟩
          else
            ⟨Event.console Func.info "Checking for outdated packages" :: flush plan.logs ++
              [Event.prompt "Want to auto-install packages?"] ++
              [Event.console Func.info
                  ("Running npm install for " ++ " ".intercalate plan.installPackages),
                Event.exec (command plan.installPackages)] ++
              (exec (command plan.installPackages)).stderr.map
                (fun data => Event.console Func.error data), Outcome.pending⟩
      else ⟨flush plan.logs, Outcome.rejected⟩ := by
  have hlen : 0 < plan.installPackages.length := List.length_pos.mpr hi
  unfold checkPackagesWith
  simp only [hp, hl, hrun, he, List.length_nil, gt_iff_lt, lt_self_iff_false, if_false, hlen,
    if_true]
  cases autofixEnabled with
  | false => simp
  | true =>
    cases prompt with
    | none => simp
    | some b => cases b <;> simp

/-- The run of a pass without authorization, written out: it never reaches the
prompt, the installer or the call of line 157. -/
theorem checkPackagesWith_false (recheck : World → Run) (h : Host) (prompt : Option Bool)
    (exec : String → Installation) (w : World) :
    checkPackagesWith recheck h prompt exec false w =
      match w.packageJson with
      | none => ⟨[], Outcome.rejected⟩
      | some packageJson =>
        match w.packageLockJson with
        | none => ⟨[], Outcome.rejected⟩
        | some packageLockJson =>
          match classify h w packageJson packageLockJson with
          | Step.throw => ⟨[], Outcome.rejected⟩
          | Step.exit code _ => ⟨[], Outcome.exited code⟩
          | Step.next plan =>
            if plan.errorPackages.length > 0 then
              ⟨flush plan.logs ++ reportErrors plan.errorPackages, Outcome.exited 0⟩
            else if plan.installPackages.length > 0 then ⟨flush plan.logs, Outcome.rejected⟩
            else
              ⟨flush plan.logs ++ [Event.console Func.info "All packages up-to-date"],
                Outcome.resolved⟩ := by
  unfold checkPackagesWith
  cases w.packageJson with
  | none => rfl
  | some packageJson =>
    cases w.packageLockJson with
    | none => rfl
    | some packageLockJson =>
      cases classify h w packageJson packageLockJson with
      | throw => rfl
      | exit code acc => rfl
      | next plan => simp

theorem prompts_append (a b : List Event) : prompts (a ++ b) = prompts a + prompts b := by
  simp [prompts, List.countP_append]

theorem execs_append (a b : List Event) : execs (a ++ b) = execs a ++ execs b := by
  simp [execs, List.filterMap_append]

theorem prompts_console (l : List Event) (hl : ∀ ev ∈ l, ∃ f m, ev = Event.console f m) :
    prompts l = 0 := by
  unfold prompts
  rw [List.countP_eq_zero]
  intro ev hev
  obtain ⟨f, m, rfl⟩ := hl ev hev
  simp

theorem execs_console (l : List Event) (hl : ∀ ev ∈ l, ∃ f m, ev = Event.console f m) :
    execs l = [] := by
  unfold execs
  rw [List.filterMap_eq_nil_iff]
  intro ev hev
  obtain ⟨f, m, rfl⟩ := hl ev hev
  rfl

theorem flush_console (logs : List Log) : ∀ ev ∈ flush logs, ∃ f m, ev = Event.console f m := by
  intro ev hev
  unfold flush at hev
  obtain ⟨l, -, rfl⟩ := List.mem_map.mp hev
  exact ⟨_, _, rfl⟩

theorem reportErrors_console (names : List String) :
    ∀ ev ∈ reportErrors names, ∃ f m, ev = Event.console f m := by
  intro ev hev
  unfold reportErrors at hev
  rcases List.mem_cons.mp hev with rfl | hev
  · exact ⟨_, _, rfl⟩
  · obtain ⟨l, -, rfl⟩ := List.mem_map.mp hev
    exact ⟨_, _, rfl⟩

/-- A pass without authorization writes to the console only, and its promise is
settled or the process is ended: it is never left waiting. -/
theorem recheck_console_only (recheck : World → Run) (h : Host) (prompt : Option Bool)
    (exec : String → Installation) (w : World) :
    (∀ ev ∈ (checkPackagesWith recheck h prompt exec false w).events,
      ∃ f m, ev = Event.console f m) ∧
    ((checkPackagesWith recheck h prompt exec false w).outcome = Outcome.resolved ∨
      (checkPackagesWith recheck h prompt exec false w).outcome = Outcome.rejected ∨
      ∃ code, (checkPackagesWith recheck h prompt exec false w).outcome = Outcome.exited code) := by
  rw [checkPackagesWith_false]
  cases hp : w.packageJson with
  | none => simp
  | some packageJson =>
    cases hl : w.packageLockJson with
    | none => simp
    | some packageLockJson =>
      cases hc : classify h w packageJson packageLockJson with
      | throw => simp [hc]
      | exit code acc => simp [hc]
      | next plan =>
        simp only [hc]
        split_ifs
        · refine ⟨?_, Or.inr (Or.inr ⟨0, rfl⟩)⟩
          intro ev hev
          rcases List.mem_append.mp hev with hev | hev
          · exact flush_console _ ev hev
          · exact reportErrors_console _ ev hev
        · exact ⟨flush_console _, Or.inr (Or.inl rfl)⟩
        · refine ⟨?_, Or.inl rfl⟩
          intro ev hev
          rcases List.mem_append.mp hev with hev | hev
          · exact flush_console _ ev hev
          · rw [List.mem_singleton] at hev
            exact ⟨_, _, hev⟩

/-! ## No prompt on recheck (C11) -/

/-- C11. A pass run with authorization disabled whose loop completes with an empty
error set and a non-empty install list fails: it writes its buffered logs, its
promise rejects, and it holds no prompt and no call of the installer; nor does
it reach the call of line 157, whatever that call would do. -/
theorem recheck_with_installs_rejects (h : Host) (prompt : Option Bool)
    (exec : String → Installation) (w : World) (packageJson : PackageJson) (lock : PackageLock)
    (plan : Plan)
    (hp : w.packageJson = some packageJson) (hl : w.packageLockJson = some lock)
    (hrun : classify h w packageJson lock = Step.next plan)
    (he : plan.errorPackages = []) (hi : plan.installPackages ≠ []) :
    checkPackages h prompt exec false w =
      ⟨plan.logs.map (fun l => Event.console l.func l.msg), Outcome.rejected⟩ ∧
    (∀ recheck : World → Run, checkPackagesWith recheck h prompt exec false w =
      ⟨plan.logs.map (fun l => Event.console l.func l.msg), Outcome.rejected⟩) ∧
    prompts (checkPackages h prompt exec false w).events = 0 ∧
    execs (checkPackages h prompt exec false w).events = [] ∧
    (∀ message, Event.prompt message ∉ (checkPackages h prompt exec false w).events) ∧
    (∀ command, Event.exec command ∉ (checkPackages h prompt exec false w).events) := by
  have hwith : ∀ recheck : World → Run, checkPackagesWith recheck h prompt exec false w =
      ⟨plan.logs.map (fun l => Event.console l.func l.msg), Outcome.rejected⟩ := by
    intro recheck
    rw [checkPackagesWith_installs recheck h prompt exec false w packageJson lock plan hp hl hrun
      he hi]
    rfl
  have hev : checkPackages h prompt exec false w =
      ⟨plan.logs.map (fun l => Event.console l.func l.msg), Outcome.rejected⟩ := by
    rw [checkPackages_eq, hwith]
  have hconsole : ∀ ev ∈ (checkPackages h prompt exec false w).events,
      ∃ f m, ev = Event.console f m := by
    rw [hev]
    exact flush_console plan.logs
  refine ⟨hev, hwith, prompts_console _ hconsole, execs_console _ hconsole, ?_, ?_⟩
  · intro message hmem
    obtain ⟨f, m, hfm⟩ := hconsole _ hmem
    cases hfm
  · intro command hmem
    obtain ⟨f, m, hfm⟩ := hconsole _ hmem
    cases hfm

/-- C11 at a concrete input: `a` is locked at 1.2.0 and not installed; the pass
without authorization writes the one warning and rejects. -/
theorem recheck_with_installs_rejects_witness :
    classify nodeHost emptyDirectory manifestA lockA =
      Step.next ⟨["a@1.2.0"], [], [⟨Func.warn, "a is not installed, but found in lock file."⟩]⟩ ∧
    checkPackages nodeHost (some true) (fun _ => ⟨[], some 0, installedDirectory⟩) false
        emptyDirectory =
      ⟨[Event.console Func.warn "a is not installed, but found in lock file."],
        Outcome.rejected⟩ := by
  have hc : classify nodeHost emptyDirectory manifestA lockA =
      Step.next ⟨["a@1.2.0"], [], [⟨Func.warn, "a is not installed, but found in lock file."⟩]⟩ := by
    decide
  exact ⟨hc,
    (recheck_with_installs_rejects nodeHost (some true) (fun _ => ⟨[], some 0, installedDirectory⟩)
      emptyDirectory manifestA lockA _ rfl rfl hc rfl (by decide)).1⟩

/-! ## Declining the prompt (C12) -/

/-- C12. In a first pass whose loop completes with an empty error set and a
non-empty install list, a user who answers no makes the pass resolve: the run is
the opening message, the buffered logs and the one prompt; it is the same run
for every installer and holds no call of the installer, and it does not reach
the call of line 157, whatever that call would do: no recheck pass is run. -/
theorem declined_prompt_resolves (h : Host) (exec : String → Installation) (w : World)
    (packageJson : PackageJson) (lock : PackageLock) (plan : Plan)
    (hp : w.packageJson = some packageJson) (hl : w.packageLockJson = some lock)
    (hrun : classify h w packageJson lock = Step.next plan)
    (he : plan.errorPackages = []) (hi : plan.installPackages ≠ []) :
    checkPackages h (some false) exec true w =
      ⟨Event.console Func.info "Checking for outdated packages" ::
          plan.logs.map (fun l => Event.console l.func l.msg) ++
          [Event.prompt "Want to auto-install packages?"],
        Outcome.resolved⟩ ∧
    (∀ recheck : World → Run, checkPackagesWith recheck h (some false) exec true w =
      checkPackages h (some false) exec true w) ∧
    execs (checkPackages h (some false) exec true w).events = [] ∧
    (∀ command, Event.exec command ∉ (checkPackages h (some false) exec true w).events) ∧
    (∀ msg, Event.consoleEvent msg ∉ (checkPackages h (some false) exec true w).events) := by
  have hwith : ∀ recheck : World → Run, checkPackagesWith recheck h (some false) exec true w =
      ⟨Event.console Func.info "Checking for outdated packages" ::
          plan.logs.map (fun l => Event.console l.func l.msg) ++
          [Event.prompt "Want to auto-install packages?"],
        Outcome.resolved⟩ := by
    intro recheck
    rw [checkPackagesWith_installs recheck h (some false) exec true w packageJson lock plan hp hl
      hrun he hi]
    rfl
  have hev := checkPackages_eq h (some false) exec true w
  rw [hwith] at hev
  have hshape : ∀ ev ∈ (checkPackages h (some false) exec true w).events,
      (∃ f m, ev = Event.console f m) ∨ ∃ message, ev = Event.prompt message := by
    intro ev hmem
    rw [hev] at hmem
    rcases List.mem_cons.mp hmem with rfl | hmem
    · exact Or.inl ⟨_, _, rfl⟩
    · rcases List.mem_append.mp hmem with hmem | hmem
      · exact Or.inl (flush_console plan.logs ev hmem)
      · rw [List.mem_singleton] at hmem
        exact Or.inr ⟨_, hmem⟩
  refine ⟨hev, fun recheck => by rw [hwith, hev], ?_, ?_, ?_⟩
  · unfold execs
    rw [List.filterMap_eq_nil_iff]
    intro ev hmem
    rcases hshape ev hmem with ⟨f, m, rfl⟩ | ⟨message, rfl⟩ <;> rfl
  · intro command hmem
    rcases hshape _ hmem with ⟨f, m, hfm⟩ | ⟨message, hfm⟩ <;> cases hfm
  · intro msg hmem
    rcases hshape _ hmem with ⟨f, m, hfm⟩ | ⟨message, hfm⟩ <;> cases hfm

/-- C12 at a concrete input: `a` is locked at 1.2.0 and not installed and the user
declines; the pass resolves after the prompt, although the installer would have
succeeded. -/
theorem declined_prompt_resolves_witness :
    classify nodeHost emptyDirectory manifestA lockA =
      Step.next ⟨["a@1.2.0"], [], [⟨Func.warn, "a is not installed, but found in lock file."⟩]⟩ ∧
    checkPackages nodeHost (some false) (fun _ => ⟨[], some 0, installedDirectory⟩) true
        emptyDirectory =
      ⟨[Event.console Func.info "Checking for outdated packages",
          Event.console Func.warn "a is not installed, but found in lock file.",
          Event.prompt "Want to auto-install packages?"],
        Outcome.resolved⟩ := by
  have hc : classify nodeHost emptyDirectory manifestA lockA =
      Step.next ⟨["a@1.2.0"], [], [⟨Func.warn, "a is not installed, but found in lock file."⟩]⟩ := by
    decide
  exact ⟨hc,
    (declined_prompt_resolves nodeHost (fun _ => ⟨[], some 0, installedDirectory⟩)
      emptyDirectory manifestA lockA _ rfl rfl hc rfl (by decide)).1⟩

/-! ## The batched install command (C13) -/

theorem foldl_append_acc (l : List String) (acc : String) :
    l.foldl (fun r s => r ++ s) acc = acc ++ l.foldl (fun r s => r ++ s) "" := by
  induction l generalizing acc with
  | nil => simp
  | cons a as ih =>
    rw [List.foldl_cons, ih, List.foldl_cons, ih ("" ++ a)]
    simp [String.append_assoc]

theorem intercalate_go_eq (acc s : String) (l : List String) :
    String.intercalate.go acc s l = acc ++ String.join (l.map fun x => s ++ x) := by
  induction l generalizing acc with
  | nil => simp [String.intercalate.go, String.join]
  | cons a as ih =>
    rw [String.intercalate.go, ih]
    simp only [String.join, List.map_cons, List.foldl_cons]
    rw [foldl_append_acc _ ("" ++ (s ++ a))]
    simp [String.append_assoc]

/-- Joining with a separator: the first element, then each further element
preceded by the separator. -/
theorem intercalate_cons (s t : String) (ts : List String) :
    s.intercalate (t :: ts) = t ++ String.join (ts.map fun x => s ++ x) := by
  rw [String.intercalate, intercalate_go_eq]

theorem execs_nil : execs [] = [] := rfl

theorem execs_cons_console (f : Func) (m : String) (l : List Event) :
    execs (Event.console f m :: l) = execs l := rfl

theorem execs_cons_consoleEvent (m : String) (l : List Event) :
    execs (Event.consoleEvent m :: l) = execs l := rfl

theorem execs_cons_prompt (m : String) (l : List Event) :
    execs (Event.prompt m :: l) = execs l := rfl

theorem execs_cons_exec (c : String) (l : List Event) :
    execs (Event.exec c :: l) = c :: execs l := rfl

theorem prompts_nil : prompts [] = 0 := rfl

theorem prompts_cons_console (f : Func) (m : String) (l : List Event) :
    prompts (Event.console f m :: l) = prompts l := by
  simp [prompts, List.countP_cons]

theorem prompts_cons_consoleEvent (m : String) (l : List Event) :
    prompts (Event.consoleEvent m :: l) = prompts l := by
  simp [prompts, List.countP_cons]

theorem prompts_cons_prompt (m : String) (l : List Event) :
    prompts (Event.prompt m :: l) = prompts l + 1 := by
  simp [prompts, List.countP_cons]

theorem prompts_cons_exec (c : String) (l : List Event) :
    prompts (Event.exec c :: l) = prompts l := by
  simp [prompts, List.countP_cons]

/-- The prompts and the installer calls of a first pass that reaches the
installer: one prompt, one call, whatever the installer and the recheck do. -/
theorem confirmed_pass_counts (h : Host) (exec : String → Installation) (w : World)
    (packageJson : PackageJson) (lock : PackageLock) (plan : Plan)
    (hp : w.packageJson = some packageJson) (hl : w.packageLockJson = some lock)
    (hrun : classify h w packageJson lock = Step.next plan)
    (he : plan.errorPackages = []) (hi : plan.installPackages ≠ []) :
    execs (checkPackages h (some true) exec true w).events = [command plan.installPackages] ∧
    prompts (checkPackages h (some true) exec true w).events = 1 := by
  have hflush_e := execs_console _ (flush_console plan.logs)
  have hflush_p := prompts_console _ (flush_console plan.logs)
  have hstderr : ∀ ev ∈ (exec (command plan.installPackages)).stderr.map
      (fun data => Event.console Func.error data), ∃ f m, ev = Event.console f m := by
    intro ev hev
    obtain ⟨x, -, rfl⟩ := List.mem_map.mp hev
    exact ⟨_, _, rfl⟩
  have hstderr_e := execs_console _ hstderr
  have hstderr_p := prompts_console _ hstderr
  have hre := (recheck_console_only (checkPackages h (some true) exec false) h (some true) exec
    (exec (command plan.installPackages)).world).1
  rw [← checkPackages_eq] at hre
  have hre_e := execs_console _ hre
  have hre_p := prompts_console _ hre
  rw [checkPackages_eq, checkPackagesWith_installs _ h (some true) exec true w packageJson lock
    plan hp hl hrun he hi]
  simp only [if_true]
  cases (exec (command plan.installPackages)).exit.isSome with
  | false =>
    simp only [Bool.false_eq_true, if_false, List.cons_append, List.nil_append, execs_append,
      prompts_append, execs_cons_console, execs_cons_prompt, execs_cons_exec, execs_nil,
      prompts_cons_console, prompts_cons_prompt, prompts_cons_exec, prompts_nil, hflush_e,
      hflush_p, hstderr_e, hstderr_p, List.append_nil, List.nil_append, and_self, zero_add,
      add_zero]
  | true =>
    cases h.consoleEvent with
    | false =>
      simp only [Bool.false_eq_true, if_false, if_true, List.cons_append, List.nil_append,
        execs_append, prompts_append, execs_cons_console, execs_cons_prompt, execs_cons_exec,
        execs_nil, prompts_cons_console, prompts_cons_prompt, prompts_cons_exec, prompts_nil,
        hflush_e, hflush_p, hstderr_e, hstderr_p, List.append_nil, List.nil_append, and_self,
        zero_add, add_zero]
    | true =>
      simp only [if_true, List.cons_append, List.nil_append, execs_append, prompts_append,
        execs_cons_console, execs_cons_consoleEvent, execs_cons_prompt, execs_cons_exec,
        execs_nil, prompts_cons_console, prompts_cons_consoleEvent, prompts_cons_prompt,
        prompts_cons_exec, prompts_nil, hflush_e, hflush_p, hstderr_e, hstderr_p, hre_e, hre_p,
        List.append_nil, List.nil_append, and_self, zero_add, add_zero]

/-- C13. In a first pass whose loop completes with an empty error set and a
non-empty install list, a user who confirms makes the pass call the installer
exactly once (and show exactly one prompt), whatever the installer and the
recheck do. The command is `"npm i "` followed by the install list joined with
single spaces: the first token, then each further token preceded by one space,
in the order of the install list; and the install list is, entry by entry, the
list of tokens `d@v` of a sublist of the sorted dependencies, `v` being the
version of the lock entry of `d`, or `undefined` when the lock has no entry for
`d` and the name of `d` is inherited from `Object.prototype`. -/
theorem installer_called_once_with_batch (h : Host) (exec : String → Installation) (w : World)
    (packageJson : PackageJson) (lock : PackageLock) (plan : Plan)
    (hp : w.packageJson = some packageJson) (hl : w.packageLockJson = some lock)
    (hrun : classify h w packageJson lock = Step.next plan)
    (he : plan.errorPackages = []) (hi : plan.installPackages ≠ []) :
    execs (checkPackages h (some true) exec true w).events =
      ["npm i " ++ " ".intercalate plan.installPackages] ∧
    prompts (checkPackages h (some true) exec true w).events = 1 ∧
    (∀ t ts, plan.installPackages = t :: ts →
      "npm i " ++ " ".intercalate plan.installPackages =
        "npm i " ++ t ++ String.join (ts.map fun x => " " ++ x)) ∧
    (∃ ds, ds.Sublist (dependencies packageJson) ∧
      List.Forall₂
        (fun t d => ∃ L, lock.dependencies = some L ∧
          ((∃ e, L.lookup d = some e ∧ t = d ++ "@" ++ e.version) ∨
            (L.lookup d = none ∧ d ∈ objectPrototypeKeys ∧ t = d ++ "@" ++ "undefined")))
        plan.installPackages ds) := by
  obtain ⟨hexec, hprompt⟩ := confirmed_pass_counts h exec w packageJson lock plan hp hl hrun he hi
  refine ⟨hexec, hprompt, ?_, installPackages_tokens h w packageJson lock plan hrun⟩
  intro t ts hts
  rw [hts, intercalate_cons, String.append_assoc]

/-- C13 at concrete inputs: `a` and `c` are locked and not installed; after the
confirmation the installer is called once, with `npm i a@1.2.0 c@2.0.0`. For the
manifest `{constructor}` and a lock without entry it is called once with
`npm i constructor@undefined`. -/
theorem installer_called_once_with_batch_witness :
    classify nodeHost twoMissingDirectory manifestCA lockAC =
      Step.next
        ⟨["a@1.2.0", "c@2.0.0"], [],
          [⟨Func.warn, "a is not installed, but found in lock file."⟩,
            ⟨Func.warn, "c is not installed, but found in lock file."⟩]⟩ ∧
    execs (checkPackages nodeHost (some true) (fun _ => ⟨[], some 0, twoMissingDirectory⟩) true
      twoMissingDirectory).events = ["npm i a@1.2.0 c@2.0.0"] ∧
    execs (checkPackages nodeHost (some true) (fun _ => ⟨[], some 0, constructorDirectory⟩) true
      constructorDirectory).events = ["npm i constructor@undefined"] := by
  have hc : classify nodeHost twoMissingDirectory manifestCA lockAC =
      Step.next
        ⟨["a@1.2.0", "c@2.0.0"], [],
          [⟨Func.warn, "a is not installed, but found in lock file."⟩,
            ⟨Func.warn, "c is not installed, but found in lock file."⟩]⟩ := by
    decide
  exact ⟨hc,
    (installer_called_once_with_batch nodeHost (fun _ => ⟨[], some 0, twoMissingDirectory⟩)
      twoMissingDirectory manifestCA lockAC _ rfl rfl hc rfl (by decide)).1,
    (installer_called_once_with_batch nodeHost (fun _ => ⟨[], some 0, constructorDirectory⟩)
      constructorDirectory manifestConstructor ⟨some []⟩
      ⟨["constructor@undefined"], [],
        [⟨Func.warn, "constructor is not installed, but found in lock file."⟩]⟩
      rfl rfl (by decide) rfl (by decide)).1⟩

/-! ## The recheck after the install (C14) -/

/-- On a host whose `console` has a method `event`, a confirmed first pass whose
installer emits `exit` runs the pass of line 157 on the directory the installer
left, and its outcome is the outcome of that pass. -/
theorem recheck_outcome_propagates (h : Host) (exec : String → Installation) (w : World)
    (packageJson : PackageJson) (lock : PackageLock) (plan : Plan)
    (hp : w.packageJson = some packageJson) (hl : w.packageLockJson = some lock)
    (hrun : classify h w packageJson lock = Step.next plan)
    (he : plan.errorPackages = []) (hi : plan.installPackages ≠ [])
    (hexit : (exec (command plan.installPackages)).exit.isSome = true)
    (hevent : h.consoleEvent = true) :
    (checkPackages h (some true) exec true w).outcome =
      (checkPackages h (some true) exec false (exec (command plan.installPackages)).world).outcome ∧
    (checkPackages h (some true) exec true w).events =
      Event.console Func.info "Checking for outdated packages" :: flush plan.logs ++
        [Event.prompt "Want to auto-install packages?"] ++
        [Event.console Func.info
            ("Running npm install for " ++ " ".intercalate plan.installPackages),
          Event.exec (command plan.installPackages)] ++
        (exec (command plan.installPackages)).stderr.map
          (fun data => Event.console Func.error data) ++
        [Event.consoleEvent "Installed missing packages",
          Event.console Func.info "Re-checking for outdated packages"] ++
        (checkPackages h (some true) exec false
          (exec (command plan.installPackages)).world).events := by
  rw [checkPackages_eq h (some true) exec true w,
    checkPackagesWith_installs _ h (some true) exec true w packageJson lock plan hp hl hrun he hi]
  simp only [if_true, hexit, hevent]
  exact ⟨trivial, trivial⟩

/-- On a host whose `console` has no method `event`, a confirmed first pass whose
installer emits `exit` stops in the handler of line 151: the call of line 153
throws, the pass of line 157 is not run, and the promise is never settled. -/
theorem recheck_not_reached_without_console_event (h : Host) (exec : String → Installation)
    (w : World) (packageJson : PackageJson) (lock : PackageLock) (plan : Plan)
    (hp : w.packageJson = some packageJson) (hl : w.packageLockJson = some lock)
    (hrun : classify h w packageJson lock = Step.next plan)
    (he : plan.errorPackages = []) (hi : plan.installPackages ≠ [])
    (hexit : (exec (command plan.installPackages)).exit.isSome = true)
    (hevent : h.consoleEvent = false) :
    (checkPackages h (some true) exec true w).outcome = Outcome.unhandled ∧
    ∀ recheck : World → Run, checkPackagesWith recheck h (some true) exec true w =
      checkPackages h (some true) exec true w := by
  have hwith : ∀ recheck : World → Run, checkPackagesWith recheck h (some true) exec true w =
      ⟨Event.console Func.info "Checking for outdated packages" :: flush plan.logs ++
        [Event.prompt "Want to auto-install packages?"] ++
        [Event.console Func.info
            ("Running npm install for " ++ " ".intercalate plan.installPackages),
          Event.exec (command plan.installPackages)] ++
        (exec (command plan.installPackages)).stderr.map
          (fun data => Event.console Func.error data), Outcome.unhandled⟩ := by
    intro recheck
    rw [checkPackagesWith_installs recheck h (some true) exec true w packageJson lock plan hp hl
      hrun he hi]
    simp only [if_true, hexit, hevent, Bool.false_eq_true, if_false]
  rw [checkPackages_eq h (some true) exec true w, hwith]
  exact ⟨rfl, fun recheck => hwith recheck⟩

/-- C14, evaluated on the code. Manifest `{a: "^1.0.0"}`, lock `{a: "1.2.0"}`, `a`
not installed, the user confirms, and `npm i a@1.2.0` succeeds and installs `a`,
under Node.js: the `exit` handler first calls `console.event` (line 153),
which is not a function of Node's console, so it throws before its `try`; the
run ends after the call of the installer without the message of line 156 and
without a second pass, and the promise is never settled, although the recheck
pass on the directory the installer left would resolve. -/
theorem recheck_is_not_reached_on_node :
    checkPackages nodeHost (some true) (fun _ => ⟨[], some 0, installedDirectory⟩) true
        emptyDirectory =
      ⟨[Event.console Func.info "Checking for outdated packages",
          Event.console Func.warn "a is not installed, but found in lock file.",
          Event.prompt "Want to auto-install packages?",
          Event.console Func.info "Running npm install for a@1.2.0",
          Event.exec "npm i a@1.2.0"],
        Outcome.unhandled⟩ ∧
    checkPackages nodeHost (some true) (fun _ => ⟨[], some 0, installedDirectory⟩) false
        installedDirectory =
      ⟨[Event.console Func.info "All packages up-to-date"], Outcome.resolved⟩ := by
  constructor
  · rw [checkPackages]; rfl
  · rw [checkPackages]; rfl

/-! ## A failing installer (C15) -/

/-- A pass without authorization is the same run whatever the prompt answer and
the installer are: it uses neither. -/
theorem recheck_ignores_collaborators (h : Host) (prompt prompt' : Option Bool)
    (exec exec' : String → Installation) (w : World) :
    checkPackages h prompt exec false w = checkPackages h prompt' exec' false w := by
  rw [checkPackages_eq, checkPackages_eq, checkPackagesWith_false, checkPackagesWith_false]

/-- C15 as stated fails on the code. Manifest `{a: "^1.0.0"}`, lock `{a: "1.2.0"}`,
`a` not installed, the user confirms. When the installer cannot be spawned (the
child emits `error` and never `exit`) the promise is never settled; when the
installer exits with status 1 under Node.js the handler throws at line 153 and
the promise is never settled; when it exits with status 1 on a host whose
console has `event`, having put `a` in place, the recheck resolves and so does
the pass. In no case is the outcome a rejection. -/
theorem failed_installer_is_not_rejected :
    (checkPackages nodeHost (some true)
        (fun _ => ⟨["spawn /bin/sh EAGAIN"], none, emptyDirectory⟩) true emptyDirectory).outcome =
      Outcome.pending ∧
    (checkPackages nodeHost (some true)
        (fun _ => ⟨["npm ERR! code E404"], some 1, emptyDirectory⟩) true emptyDirectory).outcome =
      Outcome.unhandled ∧
    (checkPackages eventHost (some true)
        (fun _ => ⟨["npm ERR! code ELIFECYCLE"], some 1, installedDirectory⟩) true
        emptyDirectory).outcome =
      Outcome.resolved ∧
    ¬ (∀ (h : Host) (exec : String → Installation),
      (exec "npm i a@1.2.0").exit ≠ some 0 →
      (checkPackages h (some true) exec true emptyDirectory).outcome = Outcome.rejected) := by
  have h1 : (checkPackages nodeHost (some true)
      (fun _ => ⟨["spawn /bin/sh EAGAIN"], none, emptyDirectory⟩) true emptyDirectory).outcome =
      Outcome.pending := by
    rw [checkPackages]; rfl
  refine ⟨h1, ?_, ?_, ?_⟩
  · rw [checkPackages]; rfl
  · rw [(recheck_outcome_propagates eventHost
      (fun _ => ⟨["npm ERR! code ELIFECYCLE"], some 1, installedDirectory⟩) emptyDirectory
      manifestA lockA
      ⟨["a@1.2.0"], [], [⟨Func.warn, "a is not installed, but found in lock file."⟩]⟩
      rfl rfl (by decide) rfl (by decide) rfl rfl).1, checkPackages]
    rfl
  · intro hall
    have h2 := hall nodeHost (fun _ => ⟨["spawn /bin/sh EAGAIN"], none, emptyDirectory⟩)
      (by decide)
    rw [h1] at h2
    cases h2

/-- C15, amended. In a first pass whose loop completes with an empty error set and
a non-empty install list and in which the user confirms, the installer is called
exactly once, whatever its result: there is no second call. The result of the
installer is not inspected: two installers that write the same to stderr, leave
the same directory and both emit `exit`, or both do not, give the same run,
whatever their exit codes. If the child never emits `exit` the promise is never
settled; if it emits `exit`, with any code, and the host's console has `event`,
the outcome of the pass is the outcome of the recheck pass on the directory the
installer left, which is a resolution, a rejection or an end of the process. -/
theorem installer_result_is_not_inspected (h : Host) (exec : String → Installation) (w : World)
    (packageJson : PackageJson) (lock : PackageLock) (plan : Plan)
    (hp : w.packageJson = some packageJson) (hl : w.packageLockJson = some lock)
    (hrun : classify h w packageJson lock = Step.next plan)
    (he : plan.errorPackages = []) (hi : plan.installPackages ≠ []) :
    execs (checkPackages h (some true) exec true w).events =
      ["npm i " ++ " ".intercalate plan.installPackages] ∧
    (∀ exec' : String → Installation,
      (∀ c, (exec' c).stderr = (exec c).stderr ∧ (exec' c).world = (exec c).world ∧
        (exec' c).exit.isSome = (exec c).exit.isSome) →
      checkPackages h (some true) exec' true w = checkPackages h (some true) exec true w) ∧
    ((exec ("npm i " ++ " ".intercalate plan.installPackages)).exit = none →
      (checkPackages h (some true) exec true w).outcome = Outcome.pending) ∧
    (∀ code, (exec ("npm i " ++ " ".intercalate plan.installPackages)).exit = some code →
      h.consoleEvent = true →
      (checkPackages h (some true) exec true w).outcome =
        (checkPackages h (some true) exec false
          (exec ("npm i " ++ " ".intercalate plan.installPackages)).world).outcome ∧
      ((checkPackages h (some true) exec true w).outcome = Outcome.resolved ∨
        (checkPackages h (some true) exec true w).outcome = Outcome.rejected ∨
        ∃ status, (checkPackages h (some true) exec true w).outcome = Outcome.exited status)) := by
  refine ⟨(confirmed_pass_counts h exec w packageJson lock plan hp hl hrun he hi).1, ?_, ?_, ?_⟩
  · intro exec' hsame
    obtain ⟨hs, hw, hx⟩ := hsame (command plan.installPackages)
    rw [checkPackages_eq h (some true) exec' true w, checkPackages_eq h (some true) exec true w,
      checkPackagesWith_installs _ h (some true) exec' true w packageJson lock plan hp hl hrun
        he hi,
      checkPackagesWith_installs _ h (some true) exec true w packageJson lock plan hp hl hrun
        he hi]
    simp only [hs, hw, hx, recheck_ignores_collaborators h (some true) (some true) exec' exec]
  · intro hnone
    have hx : (exec (command plan.installPackages)).exit.isSome = false := by
      show (exec ("npm i " ++ " ".intercalate plan.installPackages)).exit.isSome = false
      rw [hnone]; rfl
    rw [checkPackages_eq h (some true) exec true w,
      checkPackagesWith_installs _ h (some true) exec true w packageJson lock plan hp hl hrun
        he hi]
    simp only [if_true, hx, Bool.false_eq_true, if_false]
  · intro code hcode hevent
    have hx : (exec (command plan.installPackages)).exit.isSome = true := by
      show (exec ("npm i " ++ " ".intercalate plan.installPackages)).exit.isSome = true
      rw [hcode]; rfl
    have hout := (recheck_outcome_propagates h exec w packageJson lock plan hp hl hrun he hi hx
      hevent).1
    refine ⟨hout, ?_⟩
    rw [hout, checkPackages_eq]
    exact (recheck_console_only _ h (some true) exec _).2

/-- C15, amended, at a concrete input: `a` is not installed, the user confirms and
the installer exits with status 1 leaving the directory as it was, on a host
whose console has `event`: the installer is called once and the pass rejects,
because the recheck still finds `a` missing. -/
theorem installer_result_is_not_inspected_witness :
    classify eventHost emptyDirectory manifestA lockA =
      Step.next ⟨["a@1.2.0"], [], [⟨Func.warn, "a is not installed, but found in lock file."⟩]⟩ ∧
    execs (checkPackages eventHost (some true)
      (fun _ => ⟨["npm ERR! code E404"], some 1, emptyDirectory⟩) true emptyDirectory).events =
      ["npm i a@1.2.0"] ∧
    (checkPackages eventHost (some true)
      (fun _ => ⟨["npm ERR! code E404"], some 1, emptyDirectory⟩) true emptyDirectory).outcome =
      (checkPackages eventHost (some true)
        (fun _ => ⟨["npm ERR! code E404"], some 1, emptyDirectory⟩) false emptyDirectory).outcome ∧
    (checkPackages eventHost (some true)
      (fun _ => ⟨["npm ERR! code E404"], some 1, emptyDirectory⟩) false emptyDirectory).outcome =
      Outcome.rejected := by
  have hc : classify eventHost emptyDirectory manifestA lockA =
      Step.next ⟨["a@1.2.0"], [], [⟨Func.warn, "a is not installed, but found in lock file."⟩]⟩ := by
    decide
  have hthm := installer_result_is_not_inspected eventHost
    (fun _ => ⟨["npm ERR! code E404"], some 1, emptyDirectory⟩) emptyDirectory manifestA lockA _
    rfl rfl hc rfl (by decide)
  refine ⟨hc, hthm.1, (hthm.2.2.2 1 rfl rfl).1, ?_⟩
  rw [checkPackages]; rfl

/-! ## The environment gate (C16) -/

/-- Outside production `withPackageCheck` runs `checkPackages(true)` and returns
the config exactly when that call resolves. -/
theorem withPackageCheck_checks {Config : Type} (nodeEnv : Option String) (h : Host)
    (prompt : Option Bool) (exec : String → Installation) (w : World) (config : Config)
    (hdev : nodeEnv ≠ some "production") :
    withPackageCheck nodeEnv h prompt exec w config =
      (checkPackages h prompt exec true w,
        if (checkPackages h prompt exec true w).outcome = Outcome.resolved then some config
        else none) := by
  unfold withPackageCheck
  rw [if_neg hdev]
  simp only
  generalize checkPackages h prompt exec true w = r
  obtain ⟨events, outcome⟩ := r
  cases outcome <;> rfl

/-- C16. When `NODE_ENV` is `"production"`, `withPackageCheck(config)` resolves to
the config it was given and does nothing else: its run holds no event (no log,
no prompt, no installer, no end of the process) and is the same for every file
system, host, prompt answer and installer, none of which is consulted. For any
other value of `NODE_ENV`, also when it is unset, its run is the run of the one
call `checkPackages(true)`. -/
theorem production_skips_the_check {Config : Type} (nodeEnv : Option String) (h : Host)
    (prompt : Option Bool) (exec : String → Installation) (w : World) (config : Config) :
    (nodeEnv = some "production" →
      withPackageCheck nodeEnv h prompt exec w config = (⟨[], Outcome.resolved⟩, some config) ∧
      ∀ (h' : Host) (prompt' : Option Bool) (exec' : String → Installation) (w' : World),
        withPackageCheck nodeEnv h' prompt' exec' w' config =
          withPackageCheck nodeEnv h prompt exec w config) ∧
    (nodeEnv ≠ some "production" →
      (withPackageCheck nodeEnv h prompt exec w config).1 = checkPackages h prompt exec true w) := by
  constructor
  · intro hprod
    subst hprod
    exact ⟨rfl, fun _ _ _ _ => rfl⟩
  · intro hdev
    rw [withPackageCheck_checks nodeEnv h prompt exec w config hdev]

/-- C16 at concrete inputs: in production nothing is run, although `a` is missing;
with `NODE_ENV` unset or set to `development` the run is that of
`checkPackages(true)`. -/
theorem production_skips_the_check_witness :
    withPackageCheck (some "production") nodeHost (some true)
        (fun _ => ⟨[], some 0, installedDirectory⟩) emptyDirectory "config" =
      (⟨[], Outcome.resolved⟩, some "config") ∧
    (withPackageCheck (some "development") nodeHost (some false)
        (fun _ => ⟨[], some 0, installedDirectory⟩) emptyDirectory "config").1 =
      checkPackages nodeHost (some false) (fun _ => ⟨[], some 0, installedDirectory⟩) true
        emptyDirectory ∧
    (withPackageCheck none nodeHost (some false)
        (fun _ => ⟨[], some 0, installedDirectory⟩) emptyDirectory "config").1 =
      checkPackages nodeHost (some false) (fun _ => ⟨[], some 0, installedDirectory⟩) true
        emptyDirectory := by
  exact ⟨(production_skips_the_check (some "production") nodeHost (some true)
      (fun _ => ⟨[], some 0, installedDirectory⟩) emptyDirectory "config").1 rfl |>.1,
    (production_skips_the_check (some "development") nodeHost (some false)
      (fun _ => ⟨[], some 0, installedDirectory⟩) emptyDirectory "config").2 (by decide),
    (production_skips_the_check none nodeHost (some false)
      (fun _ => ⟨[], some 0, installedDirectory⟩) emptyDirectory "config").2 (by decide)⟩

/-! ## The bound on the recheck (C17) -/

/-- The prompts and the installer calls of any first pass: at most one each. -/
theorem first_pass_counts (h : Host) (prompt : Option Bool) (exec : String → Installation)
    (w : World) :
    prompts (checkPackages h prompt exec true w).events ≤ 1 ∧
    (execs (checkPackages h prompt exec true w).events).length ≤ 1 := by
  cases hp : w.packageJson with
  | none =>
    rw [checkPackages_eq]
    unfold checkPackagesWith
    simp only [hp]
    exact ⟨by decide, by decide⟩
  | some packageJson =>
    cases hl : w.packageLockJson with
    | none =>
      rw [checkPackages_eq]
      unfold checkPackagesWith
      simp only [hp, hl]
      exact ⟨by decide, by decide⟩
    | some lock =>
      cases hc : classify h w packageJson lock with
      | throw =>
        rw [checkPackages_eq]
        unfold checkPackagesWith
        simp only [hp, hl, hc]
        exact ⟨by decide, by decide⟩
      | exit code acc =>
        rw [checkPackages_eq]
        unfold checkPackagesWith
        simp only [hp, hl, hc]
        exact ⟨by decide, by decide⟩
      | next plan =>
        have hflush_e := execs_console _ (flush_console plan.logs)
        have hflush_p := prompts_console _ (flush_console plan.logs)
        have herr_e := execs_console _ (reportErrors_console plan.errorPackages)
        have herr_p := prompts_console _ (reportErrors_console plan.errorPackages)
        by_cases he : plan.errorPackages = []
        · by_cases hi : plan.installPackages = []
          · rw [checkPackages_eq]
            unfold checkPackagesWith
            simp only [hp, hl, hc, he, hi, List.length_nil, gt_iff_lt, lt_self_iff_false,
              if_false, if_true, List.cons_append, List.nil_append, List.append_nil,
              prompts_cons_console, execs_cons_console, hflush_e, hflush_p, List.length_nil]
            exact ⟨by decide, by decide⟩
          · cases prompt with
            | none =>
              rw [checkPackages_eq, checkPackagesWith_installs _ h none exec true w packageJson
                lock plan hp hl hc he hi]
              simp only [if_true, List.cons_append, prompts_append, execs_append,
                prompts_cons_console, execs_cons_console, prompts_cons_prompt, execs_cons_prompt,
                prompts_nil, execs_nil, hflush_e, hflush_p, List.append_nil, List.length_nil]
              exact ⟨by decide, by decide⟩
            | some answer =>
              cases answer with
              | false =>
                rw [checkPackages_eq, checkPackagesWith_installs _ h (some false) exec true w
                  packageJson lock plan hp hl hc he hi]
                simp only [if_true, List.cons_append, prompts_append, execs_append,
                  prompts_cons_console, execs_cons_console, prompts_cons_prompt,
                  execs_cons_prompt, prompts_nil, execs_nil, hflush_e, hflush_p, List.append_nil,
                  List.length_nil]
                exact ⟨by decide, by decide⟩
              | true =>
                obtain ⟨h1, h2⟩ := confirmed_pass_counts h exec w packageJson lock plan hp hl hc
                  he hi
                rw [h1, h2]
                exact ⟨le_refl 1, le_refl 1⟩
        · have hlen : 0 < plan.errorPackages.length := List.length_pos.mpr he
          rw [checkPackages_eq]
          unfold checkPackagesWith
          simp only [hp, hl, hc, gt_iff_lt, hlen, if_true, List.cons_append, List.nil_append,
            prompts_append, execs_append, prompts_cons_console, execs_cons_console, hflush_e,
            hflush_p, herr_e, herr_p, List.append_nil, List.length_nil]
          exact ⟨by decide, by decide⟩

/-- C17. For every host, file system, prompt answer and installer, a call of
`checkPackages(true)` runs at most two passes: its run is that of the body with
the call of line 157 replaced by a pass without authorization whose own call of
line 157 is replaced by anything at all, so a third pass is never started. A
pass without authorization is the same run whatever stands for its call of
line 157 (it never starts a further pass), writes to the console only (no
prompt, no installer) and always ends settled or with the process ended. The
whole call shows at most one prompt and calls the installer at most once. -/
theorem recheck_depth_is_bounded (h : Host) (prompt : Option Bool)
    (exec : String → Installation) (w : World) :
    (∀ third : World → Run,
      checkPackages h prompt exec true w =
        checkPackagesWith (fun w' => checkPackagesWith third h prompt exec false w')
          h prompt exec true w) ∧
    (∀ (r r' : World → Run) (w' : World),
      checkPackagesWith r h prompt exec false w' = checkPackagesWith r' h prompt exec false w') ∧
    (∀ w' : World,
      prompts (checkPackages h prompt exec false w').events = 0 ∧
      execs (checkPackages h prompt exec false w').events = [] ∧
      (∀ ev ∈ (checkPackages h prompt exec false w').events, ∃ f m, ev = Event.console f m) ∧
      ((checkPackages h prompt exec false w').outcome = Outcome.resolved ∨
        (checkPackages h prompt exec false w').outcome = Outcome.rejected ∨
        ∃ code, (checkPackages h prompt exec false w').outcome = Outcome.exited code)) ∧
    prompts (checkPackages h prompt exec true w).events ≤ 1 ∧
    (execs (checkPackages h prompt exec true w).events).length ≤ 1 := by
  have hsame : ∀ (r r' : World → Run) (w' : World),
      checkPackagesWith r h prompt exec false w' = checkPackagesWith r' h prompt exec false w' := by
    intro r r' w'
    rw [checkPackagesWith_false, checkPackagesWith_false]
  refine ⟨?_, hsame, ?_, first_pass_counts h prompt exec w⟩
  · intro third
    rw [checkPackages_eq h prompt exec true w]
    congr 1
    funext w'
    rw [checkPackages_eq h prompt exec false w']
    exact hsame _ _ w'
  · intro w'
    have hre := recheck_console_only (checkPackages h prompt exec false) h prompt exec w'
    rw [← checkPackages_eq] at hre
    exact ⟨prompts_console _ hre.1, execs_console _ hre.1, hre.1, hre.2⟩

/-! ## The error set holds each name once (C18) -/

/-- The run of a pass whose loop completes with a non-empty error set. -/
theorem checkPackages_errors (h : Host) (prompt : Option Bool) (exec : String → Installation)
    (autofixEnabled : Bool) (w : World) (packageJson : PackageJson) (lock : PackageLock)
    (plan : Plan)
    (hp : w.packageJson = some packageJson) (hl : w.packageLockJson = some lock)
    (hrun : classify h w packageJson lock = Step.next plan)
    (hne : plan.errorPackages ≠ []) :
    checkPackages h prompt exec autofixEnabled w =
      ⟨(if autofixEnabled then [Event.console Func.info "Checking for outdated packages"] else [])
          ++ flush plan.logs ++ reportErrors plan.errorPackages, Outcome.exited 0⟩ := by
  have hlen : 0 < plan.errorPackages.length := List.length_pos.mpr hne
  rw [checkPackages]
  simp only [hp, hl, hrun, gt_iff_lt, hlen, if_true]

/-- C18. The error set of a completed loop holds no name twice, also when several
dependencies contribute the same name: it holds exactly the names some
dependency contributes, and its size is the number of distinct names among
all contributions. The report of lines 128-129 is the line
"Found N packages with errors:", N being that number, followed by each name of
the error set once, and it is what a pass with a non-empty error set writes
after its logs. The logs are not de-duplicated: they are the concatenation of
what each dependency contributes, and a matched dependency contributes one log
per failing peer. -/
theorem error_set_has_no_duplicates (h : Host) (w : World) (packageJson : PackageJson)
    (lock : PackageLock) (plan : Plan)
    (hrun : classify h w packageJson lock = Step.next plan) :
    plan.errorPackages.Nodup ∧
    (∀ x, plan.errorPackages.count x ≤ 1) ∧
    (∀ x, x ∈ plan.errorPackages ↔ ∃ d ∈ dependencies packageJson,
      x ∈ (contribution h w lock (dependencies packageJson) d).errorPackages) ∧
    plan.errorPackages.length =
      ((dependencies packageJson).flatMap fun d =>
        (contribution h w lock (dependencies packageJson) d).errorPackages).toFinset.card ∧
    reportErrors plan.errorPackages =
      Event.console Func.error
          ("Found " ++ toString plan.errorPackages.toFinset.card ++ " packages with errors:") ::
        plan.errorPackages.map (fun name => Event.console Func.error name) ∧
    (∀ (prompt : Option Bool) (exec : String → Installation) (autofixEnabled : Bool),
      w.packageJson = some packageJson → w.packageLockJson = some lock →
      plan.errorPackages ≠ [] →
      checkPackages h prompt exec autofixEnabled w =
        ⟨(if autofixEnabled then [Event.console Func.info "Checking for outdated packages"]
            else []) ++ flush plan.logs ++ reportErrors plan.errorPackages, Outcome.exited 0⟩) ∧
    plan.logs = (dependencies packageJson).flatMap
      (fun d => (contribution h w lock (dependencies packageJson) d).logs) ∧
    (∀ (L : List (String × LockEntry)) (d : String) (needed : LockEntry) (installed : Descriptor),
      lock.dependencies = some L → L.lookup d = some needed →
      w.lstatSync (dependencyPath d) = some false →
      w.readJson (dependencyPackagePath d) = some installed →
      installed.version = needed.version →
      (contribution h w lock (dependencies packageJson) d).logs =
        (failures w (dependencies packageJson) installed).map
          (fun pe => peerLog d pe.1 pe.2)) := by
  obtain ⟨-, hl, he, hn⟩ := classify_next h w packageJson lock plan hrun
  have hcard : plan.errorPackages.toFinset.card = plan.errorPackages.length :=
    List.toFinset_card_of_nodup hn
  refine ⟨hn, fun x => List.nodup_iff_count_le_one.mp hn x, he, ?_, ?_, ?_, hl, ?_⟩
  · rw [← hcard]
    congr 1
    ext x
    simp only [List.mem_toFinset, List.mem_flatMap]
    exact he x
  · unfold reportErrors
    rw [hcard]
  · intro prompt exec autofixEnabled hp hlock hne
    exact checkPackages_errors h prompt exec autofixEnabled w packageJson lock plan hp hlock hrun
      hne
  · intro L d needed installed hL hn' hfile hdesc hver
    obtain ⟨L'⟩ := lock
    simp only at hL
    subst hL
    rw [contribution_match h w L _ d needed none installed hn'
      (inspect_installed h w d installed hfile hdesc) hver]

/-- C18 at a concrete input: `a` and `c` both require the missing peer `b`; the
error set is `{b}`, the report counts 1 package and lists `b` once, and there
are two logs, one per dependency. -/
theorem error_set_has_no_duplicates_witness :
    classify nodeHost sharedPeerDirectory manifestCA lockAC =
      Step.next
        ⟨[], ["b"],
          [⟨Func.warn, "a requires b but is not installed, you must do this yourself, because I can't determine the version you need"⟩,
            ⟨Func.warn, "c requires b but is not installed, you must do this yourself, because I can't determine the version you need"⟩]⟩ ∧
    reportErrors ["b"] =
      [Event.console Func.error "Found 1 packages with errors:", Event.console Func.error "b"] ∧
    (["b"] : List String).Nodup := by
  have hc : classify nodeHost sharedPeerDirectory manifestCA lockAC =
      Step.next
        ⟨[], ["b"],
          [⟨Func.warn, "a requires b but is not installed, you must do this yourself, because I can't determine the version you need"⟩,
            ⟨Func.warn, "c requires b but is not installed, you must do this yourself, because I can't determine the version you need"⟩]⟩ := by
    decide
  have hthm := error_set_has_no_duplicates nodeHost sharedPeerDirectory manifestCA lockAC _ hc
  exact ⟨hc, hthm.2.2.2.2.1, hthm.1⟩

/-! ## Determinism of the classification (C19) -/

theorem forEach_congr (f g : Plan → String → Step) (ds : List String)
    (hfg : ∀ acc, ∀ d ∈ ds, f acc d = g acc d) (acc : Plan) :
    forEach f ds acc = forEach g ds acc := by
  induction ds generalizing acc with
  | nil => rfl
  | cons d ds ih =>
    simp only [forEach]
    rw [hfg acc d (List.mem_cons_self d ds)]
    cases g acc d with
    | next acc' => exact ih (fun a x hx => hfg a x (List.mem_cons_of_mem d hx)) acc'
    | exit code acc' => rfl
    | throw => rfl

theorem auditPeers_congr (w w' : World)
    (hpeer : ∀ p, w.statSync (peerDependencyPackagePath p) =
      w'.statSync (peerDependencyPackagePath p)) :
    auditPeers w = auditPeers w' := by
  funext deps d installed acc
  rw [auditPeers_eq, auditPeers_eq]
  have hf : failures w deps installed = failures w' deps installed := by
    unfold failures
    cases installed.peerDependencies with
    | none => rfl
    | some peers =>
      simp only
      congr 1
      funext p
      unfold failure
      rw [hpeer p]
  rw [hf]

theorem inspect_congr (h : Host) (w w' : World) (d : String)
    (hl : w.lstatSync (dependencyPath d) = w'.lstatSync (dependencyPath d))
    (hr : w.readlinkSync (dependencyPath d) = w'.readlinkSync (dependencyPath d))
    (hj : w.readJson (dependencyPackagePath d) = w'.readJson (dependencyPackagePath d)) :
    inspect h w d = inspect h w' d := by
  unfold inspect
  rw [hl, hr, hj]

theorem visit_congr (h : Host) (w w' : World) (lock : PackageLock) (deps : List String)
    (acc : Plan) (d : String)
    (hl : w.lstatSync (dependencyPath d) = w'.lstatSync (dependencyPath d))
    (hr : w.readlinkSync (dependencyPath d) = w'.readlinkSync (dependencyPath d))
    (hj : w.readJson (dependencyPackagePath d) = w'.readJson (dependencyPackagePath d))
    (hpeer : ∀ p, w.statSync (peerDependencyPackagePath p) =
      w'.statSync (peerDependencyPackagePath p)) :
    visit h w lock deps acc d = visit h w' lock deps acc d := by
  unfold visit
  rw [inspect_congr h w w' d hl hr hj, auditPeers_congr w w' hpeer]

/-- C19. The plan of a pass is a function of the host, the manifest, the lock and
what the file system answers at the paths the loop consults: two file systems
that answer alike for `./node_modules/d` and its descriptor, `d` ranging over
the sorted dependencies, and for the descriptor path of every peer, give the
same result of the loop (the same install list, error set and logs, in the
same order, or the same end of the process), whatever else differs between
them. Run twice on an unchanged file system the loop gives the same plan. The
authorization flag, the prompt answer and the installer are no input of the
loop, and the pass without authorization is the same run for file systems that
also hold the same manifest and lock. -/
theorem classification_is_determined_by_inputs (h : Host) (w w' : World)
    (packageJson : PackageJson) (lock : PackageLock)
    (hdeps : ∀ d ∈ dependencies packageJson,
      w.lstatSync (dependencyPath d) = w'.lstatSync (dependencyPath d) ∧
      w.readlinkSync (dependencyPath d) = w'.readlinkSync (dependencyPath d) ∧
      w.readJson (dependencyPackagePath d) = w'.readJson (dependencyPackagePath d))
    (hpeer : ∀ p, w.statSync (peerDependencyPackagePath p) =
      w'.statSync (peerDependencyPackagePath p)) :
    classify h w packageJson lock = classify h w' packageJson lock ∧
    (∀ plan plan', classify h w packageJson lock = Step.next plan →
      classify h w' packageJson lock = Step.next plan' →
      plan'.installPackages = plan.installPackages ∧
      plan'.errorPackages = plan.errorPackages ∧
      plan'.logs = plan.logs) ∧
    (w.packageJson = some packageJson → w'.packageJson = some packageJson →
      w.packageLockJson = some lock → w'.packageLockJson = some lock →
      ∀ (prompt prompt' : Option Bool) (exec exec' : String → Installation),
        checkPackages h prompt exec false w = checkPackages h prompt' exec' false w') := by
  have hclass : classify h w packageJson lock = classify h w' packageJson lock := by
    unfold classify
    apply forEach_congr
    intro acc d hd
    obtain ⟨hl, hr, hj⟩ := hdeps d hd
    exact visit_congr h w w' lock _ acc d hl hr hj hpeer
  refine ⟨hclass, ?_, ?_⟩
  · intro plan plan' hplan hplan'
    rw [hclass, hplan'] at hplan
    injection hplan with hplan
    subst hplan
    exact ⟨rfl, rfl, rfl⟩
  · intro hp hp' hlock hlock' prompt prompt' exec exec'
    rw [checkPackages_eq, checkPackages_eq, checkPackagesWith_false, checkPackagesWith_false]
    simp only [hp, hp', hlock, hlock', hclass]

/-- C19 at a concrete input: a second look at the unchanged empty directory, and
a look at a directory that differs from it only at a path the loop does not
consult, give the plan `[a@1.2.0]` with its one warning again. -/
theorem classification_is_determined_by_inputs_witness :
    classify nodeHost emptyDirectory manifestA lockA =
      Step.next ⟨["a@1.2.0"], [], [⟨Func.warn, "a is not installed, but found in lock file."⟩]⟩ ∧
    classify nodeHost
        { emptyDirectory with
          lstatSync := fun path => if path = "./node_modules/z" then some false else none }
        manifestA lockA =
      classify nodeHost emptyDirectory manifestA lockA := by
  refine ⟨by decide, ?_⟩
  refine (classification_is_determined_by_inputs nodeHost
    { emptyDirectory with
      lstatSync := fun path => if path = "./node_modules/z" then some false else none }
    emptyDirectory manifestA lockA ?_ (fun _ => rfl)).1
  intro d hd
  have hda : d = "a" := by
    have hdeps : dependencies manifestA = ["a"] := by decide
    rw [hdeps] at hd
    exact List.mem_singleton.mp hd
  subst hda
  exact ⟨by decide, rfl, rfl⟩

/-! ## The config is passed through (C20) -/

/-- A first pass rejects, right after its opening message, when `./package.json`
or `./package-lock.json` cannot be read or parsed. -/
theorem checkPackages_unreadable (h : Host) (prompt : Option Bool)
    (exec : String → Installation) (w : World)
    (hbad : w.packageJson = none ∨ w.packageLockJson = none) :
    checkPackages h prompt exec true w =
      ⟨[Event.console Func.info "Checking for outdated packages"], Outcome.rejected⟩ := by
  rw [checkPackages]
  rcases hbad with hp | hl
  · simp only [hp]
    rfl
  · cases hp : w.packageJson with
    | none => rfl
    | some packageJson =>
      simp only [hl]
      rfl

/-- C20. Whenever `withPackageCheck(config)` resolves, in any environment, it
resolves to the config it was given, and it returns a value only when it
resolves. When `NODE_ENV` is not `"production"` and the first pass rejects,
`withPackageCheck` rejects and returns nothing; that is the case when
`./package.json` or `./package-lock.json` cannot be read or parsed. -/
theorem config_passes_through {Config : Type} (nodeEnv : Option String) (h : Host)
    (prompt : Option Bool) (exec : String → Installation) (w : World) (config : Config) :
    (∀ c, (withPackageCheck nodeEnv h prompt exec w config).2 = some c →
      c = config ∧
      (withPackageCheck nodeEnv h prompt exec w config).1.outcome = Outcome.resolved) ∧
    ((withPackageCheck nodeEnv h prompt exec w config).1.outcome = Outcome.resolved →
      (withPackageCheck nodeEnv h prompt exec w config).2 = some config) ∧
    (nodeEnv ≠ some "production" →
      (checkPackages h prompt exec true w).outcome = Outcome.rejected →
      (withPackageCheck nodeEnv h prompt exec w config).1.outcome = Outcome.rejected ∧
      (withPackageCheck nodeEnv h prompt exec w config).2 = none) ∧
    (nodeEnv ≠ some "production" →
      w.packageJson = none ∨ w.packageLockJson = none →
      withPackageCheck nodeEnv h prompt exec w config =
        (⟨[Event.console Func.info "Checking for outdated packages"], Outcome.rejected⟩,
          none)) := by
  by_cases hprod : nodeEnv = some "production"
  · have hw : withPackageCheck nodeEnv h prompt exec w config =
        (⟨[], Outcome.resolved⟩, some config) := by
      subst hprod
      rfl
    rw [hw]
    refine ⟨?_, fun _ => rfl, fun hdev => absurd hprod hdev, fun hdev => absurd hprod hdev⟩
    intro c hc
    injection hc with hc
    exact ⟨hc.symm, rfl⟩
  · rw [withPackageCheck_checks nodeEnv h prompt exec w config hprod]
    refine ⟨?_, ?_, ?_, ?_⟩
    · intro c hc
      simp only at hc
      split_ifs at hc with hres
      · injection hc with hc
        exact ⟨hc.symm, hres⟩
    · intro hres
      simp only at hres ⊢
      rw [if_pos hres]
    · intro _ hrej
      simp only
      rw [hrej]
      exact ⟨rfl, rfl⟩
    · intro _ hbad
      rw [checkPackages_unreadable h prompt exec w hbad]
      rfl

/-- C20 at a concrete input: with `NODE_ENV` set to `development` and an unreadable
`./package.json`, `withPackageCheck` rejects and returns nothing. -/
theorem config_passes_through_witness :
    unreadableManifest.packageJson = none ∧
    withPackageCheck (some "development") nodeHost (some true)
        (fun _ => ⟨[], some 0, installedDirectory⟩) unreadableManifest "config" =
      (⟨[Event.console Func.info "Checking for outdated packages"], Outcome.rejected⟩, none) := by
  exact ⟨rfl,
    (config_passes_through (some "development") nodeHost (some true)
      (fun _ => ⟨[], some 0, installedDirectory⟩) unreadableManifest "config").2.2.2
      (by decide) (Or.inl rfl)⟩

/-! ## A name inherited from `Object.prototype` passes the lock check (C8) -/

/-- C8, evaluated on the code. Manifest `{constructor: "^1.0.0"}`, a lock whose
`dependencies` is `{}`, nothing installed: line 40 reads
`packageLockJson.dependencies["constructor"]`, which is not `undefined` but the
function every object inherits from `Object.prototype`; the lock check of
line 57 passes although the lock has no entry for the dependency,
`needed.version` is `undefined`, and line 108 queues `constructor@undefined`
with the log that the dependency was "found in lock file". The entry carries
no version of a lock entry, and a confirmed first pass runs
`npm i constructor@undefined`. -/
theorem inherited_name_is_queued_without_lock_entry (h : Host)
    (exec : String → Installation) :
    List.lookup "constructor" ([] : List (String × LockEntry)) = none ∧
    classify h constructorDirectory manifestConstructor ⟨some []⟩ =
      Step.next
        { installPackages := ["constructor@undefined"]
          errorPackages := []
          logs := [⟨Func.warn, "constructor is not installed, but found in lock file."⟩] } ∧
    execs (checkPackages h (some true) exec true constructorDirectory).events =
      ["npm i constructor@undefined"] := by
  have hc : classify h constructorDirectory manifestConstructor ⟨some []⟩ =
      Step.next
        { installPackages := ["constructor@undefined"]
          errorPackages := []
          logs := [⟨Func.warn, "constructor is not installed, but found in lock file."⟩] } := by
    rfl
  exact ⟨rfl, hc,
    (confirmed_pass_counts h exec constructorDirectory manifestConstructor ⟨some []⟩ _ rfl rfl
      hc rfl (by decide)).1⟩

end WithPackageCheck
